import Mathlib

/-!
Verification development for the `dnsmessage` DNS wire-format codec
(source files `src/lib.rs`, `src/builder.rs`, `src/packet.rs`).

The Rust code is shallowly embedded as executable Lean definitions:

* bytes are `Nat` values (< 256 on the wire); buffers are `List Nat`;
* fallible Rust functions returning `Result<_, Error>` become
  `Except Err _` (parser side) or `BRes _` (builder side; a `BRes`
  error carries the builder state at the moment of the error, matching
  the fact that a failing Rust builder call may already have emitted
  bytes into the sink before failing);
* the builder is modelled for the standard `Cursor<Vec<u8>>` sink
  starting at stream position 0, so `begin_pos = 0` and
  `stream_position()` is the length of the bytes written so far;
  `Write::write_all` is modelled as list append and the seek-and-write
  of `write_at` / the resource length backpatch as `storeAt`
  (overwrite in place), which is exactly what those seek dances do to
  the byte buffer;
* the Rust `u16` / `u32` conversions `as u16` and `to_be_bytes` are
  modelled with explicit `% 2^16` / `% 2^32` arithmetic;
* `Error` is mirrored by `Err`; the extra constructor `Err.oobSlice`
  models the one Rust panic reachable in `parse_resource_data`
  (`&packet[offset..limit]` with `limit` past the end of the buffer),
  which is not an `Error` value in the source;
* the iterator `NameVisitor::segments` is modelled by `resolveSegs`,
  which produces the whole label list (or the first error), exactly as
  the iterator's consumer `TryInto<String>` observes it.
-/

/-- Mirror of `Error` from `src/lib.rs` (the `IoError` variant cannot occur
for the in-memory sink modelled here).  `oobSlice` is not a source `Error`
variant: it marks the Rust panic on an out-of-bounds slice in
`parse_resource_data`'s `Unknown` arm. -/
inductive Err where
  | shortBuffer
  | packetSizeMismatch
  | nameTooLong
  | textTooLong
  | nonCanonicalName
  | invalidNameSegmentSize (n : Nat)
  | invalidNameSegmentBody
  | tooManyPointers
  | invalidCursorState
  | oobSlice
deriving DecidableEq, Repr

deriving instance DecidableEq for Except

/-- Mirror of `Type` from `src/lib.rs`. -/
inductive RType where
  | A | NS | CNAME | SOA | PTR | MX | TXT | AAAA | SRV | OPT
  | WKS | HINFO | MINFO | AXFR | ALL
deriving DecidableEq, Repr

/-- `#[repr(u16)]` discriminants of `Type`. -/
def rtypePrim : RType → Nat
  | .A => 1 | .NS => 2 | .CNAME => 5 | .SOA => 6 | .PTR => 12
  | .MX => 15 | .TXT => 16 | .AAAA => 28 | .SRV => 33 | .OPT => 41
  | .WKS => 11 | .HINFO => 13 | .MINFO => 14 | .AXFR => 252 | .ALL => 255

/-- `TryFromPrimitive` for `Type`. -/
def rtypeFromPrim (v : Nat) : Option RType :=
  if v = 1 then some .A else if v = 2 then some .NS
  else if v = 5 then some .CNAME else if v = 6 then some .SOA
  else if v = 12 then some .PTR else if v = 15 then some .MX
  else if v = 16 then some .TXT else if v = 28 then some .AAAA
  else if v = 33 then some .SRV else if v = 41 then some .OPT
  else if v = 11 then some .WKS else if v = 13 then some .HINFO
  else if v = 14 then some .MINFO else if v = 252 then some .AXFR
  else if v = 255 then some .ALL else none

/-- Mirror of `Class` from `src/lib.rs`. -/
inductive RClass where
  | INET | CSNET | CHAOS | HESIOD | ANY
deriving DecidableEq, Repr

def rclassPrim : RClass → Nat
  | .INET => 1 | .CSNET => 2 | .CHAOS => 3 | .HESIOD => 4 | .ANY => 255

def rclassFromPrim (v : Nat) : Option RClass :=
  if v = 1 then some .INET else if v = 2 then some .CSNET
  else if v = 3 then some .CHAOS else if v = 4 then some .HESIOD
  else if v = 255 then some .ANY else none

/-- Mirror of `RCode` from `src/lib.rs`. -/
inductive RCodeE where
  | Success | FormatError | ServerFailure | NameError | NotImplemented | Refused
deriving DecidableEq, Repr

def rcodePrim : RCodeE → Nat
  | .Success => 0 | .FormatError => 1 | .ServerFailure => 2
  | .NameError => 3 | .NotImplemented => 4 | .Refused => 5

/-- Mirror of `MaybeUnknown<T>` from `src/lib.rs`. -/
inductive MU (α : Type) where
  | known (a : α)
  | unknown (v : Nat)
deriving DecidableEq, Repr

/-- `MaybeUnknown::into` for `Type`. -/
def muTypeInto : MU RType → Nat
  | .known t => rtypePrim t
  | .unknown v => v

/-- `MaybeUnknown::from` for `Type`. -/
def muTypeFrom (v : Nat) : MU RType :=
  match rtypeFromPrim v with
  | some t => .known t
  | none => .unknown v

def muClassInto : MU RClass → Nat
  | .known c => rclassPrim c
  | .unknown v => v

def muClassFrom (v : Nat) : MU RClass :=
  match rclassFromPrim v with
  | some c => .known c
  | none => .unknown v

def muRCodeInto : MU RCodeE → Nat
  | .known c => rcodePrim c
  | .unknown v => v

/-- Mirror of `Header` from `src/lib.rs`.  `flags` is the raw `u16` bit set
of the `bitflags` struct `HeaderFlags` (defined bits are 4..=10, the mask
`HeaderFlags::all()` being 0x7F0). -/
structure Header where
  id : Nat
  resp : Bool
  opcode : Nat
  rcode : MU RCodeE
  flags : Nat
deriving DecidableEq, Repr

/-- Mirror of `ResourceData<N, D>` with owned names (canonical text bytes)
and owned data bytes; `a`/`aaaa` carry the 4/16 address octets. -/
inductive RData where
  | a (octets : List Nat)
  | ns (n : List Nat)
  | cname (n : List Nat)
  | soa (ns mbox : List Nat) (serial refresh retry expire minTtl : Nat)
  | ptr (n : List Nat)
  | mx (preference : Nat) (mx : List Nat)
  | txt (ts : List (List Nat))
  | aaaa (octets : List Nat)
  | srv (priority weight port : Nat) (target : List Nat)
  | unknown (typ : MU RType) (data : List Nat)
deriving DecidableEq, Repr

/-- Mirror of `Question<N>` with an owned name (canonical text bytes). -/
structure Question where
  name : List Nat
  typ : MU RType
  cls : MU RClass
deriving DecidableEq, Repr

/-- Mirror of `Resource<N, D>` with owned names and data. -/
structure Resource where
  name : List Nat
  cls : MU RClass
  ttl : Nat
  data : RData
deriving DecidableEq, Repr

/-! ## Byte helpers -/

/-- `u16::to_be_bytes` (the `% 2^16` models the `u16` domain). -/
def toBE16 (v : Nat) : List Nat := [v % 65536 / 256, v % 256]

/-- `u32::to_be_bytes`. -/
def toBE32 (v : Nat) : List Nat :=
  [v % 4294967296 / 16777216, v % 16777216 / 65536, v % 65536 / 256, v % 256]

/-- `u16::from_be_bytes`. -/
def be16 (hi lo : Nat) : Nat := hi * 256 + lo

/-- `u32::from_be_bytes`. -/
def be32 (b0 b1 b2 b3 : Nat) : Nat := ((b0 * 256 + b1) * 256 + b2) * 256 + b3

/-- Mirror of `load_bytes::<N>` from `src/packet.rs`: bounds check against
the buffer first (`ShortBuffer`), then against the optional declared limit
(`PacketSizeMismatch`), then the slice. -/
def loadBytes (buf : List Nat) (off n : Nat) (limit : Option Nat) :
    Except Err (List Nat) :=
  if buf.length < off + n then .error .shortBuffer
  else
    match limit with
    | some l =>
      if off + n > l then .error .packetSizeMismatch
      else .ok ((buf.drop off).take n)
    | none => .ok ((buf.drop off).take n)

/-- `load_bytes::<1>` followed by taking the single byte. -/
def load1 (buf : List Nat) (off : Nat) (limit : Option Nat) : Except Err Nat :=
  match loadBytes buf off 1 limit with
  | .error e => .error e
  | .ok bs => .ok (bs.headD 0)

/-- `u16::from_be_bytes(load_bytes(..))`. -/
def load2 (buf : List Nat) (off : Nat) (limit : Option Nat) : Except Err Nat :=
  match loadBytes buf off 2 limit with
  | .error e => .error e
  | .ok bs => .ok (be16 (bs.getD 0 0) (bs.getD 1 0))

/-- `u32::from_be_bytes(load_bytes(..))`. -/
def load4 (buf : List Nat) (off : Nat) (limit : Option Nat) : Except Err Nat :=
  match loadBytes buf off 4 limit with
  | .error e => .error e
  | .ok bs => .ok (be32 (bs.getD 0 0) (bs.getD 1 0) (bs.getD 2 0) (bs.getD 3 0))

/-- Mirror of `store_bytes` from `src/packet.rs`. -/
def storeBytes (buf : List Nat) (off : Nat) (bs : List Nat) :
    Except Err (List Nat) :=
  if buf.length < off + bs.length then .error .shortBuffer
  else .ok (buf.take off ++ bs ++ buf.drop (off + bs.length))

theorem load1_ok_lt {buf : List Nat} {off : Nat} {limit : Option Nat} {b : Nat}
    (h : load1 buf off limit = .ok b) : off < buf.length := by
  unfold load1 loadBytes at h
  by_cases hc : buf.length < off + 1
  · simp [hc] at h
  · omega

/-! ## Parser: skipping -/

/-- Mirror of `skip_name` from `src/packet.rs`: walk labels without
dereferencing pointers; a pointer ends the name after 2 bytes, a zero
byte after 1. -/
def skipName (buf : List Nat) (off : Nat) : Except Err Nat :=
  match h : load1 buf off none with
  | .error e => .error e
  | .ok b =>
    if b &&& 0xC0 = 0xC0 then .ok (off + 2)
    else if b &&& 0xC0 = 0 then
      if b = 0 then .ok (off + 1)
      else skipName buf (off + 1 + b)
    else .error .invalidNameSegmentBody
termination_by buf.length - off
decreasing_by
  have := load1_ok_lt h
  omega

/-- Mirror of `skip_question`: name, then 2 bytes type + 2 bytes class. -/
def skipQuestion (buf : List Nat) (off : Nat) : Except Err Nat :=
  match skipName buf off with
  | .error e => .error e
  | .ok o => .ok (o + 4)

/-- Mirror of `skip_resource`: name, 2+2+4 fixed bytes, 2-byte data
length, then that many data bytes. -/
def skipResource (buf : List Nat) (off : Nat) : Except Err Nat :=
  match skipName buf off with
  | .error e => .error e
  | .ok o =>
    match load2 buf (o + 8) none with
    | .error e => .error e
    | .ok len => .ok (o + 10 + len)

/-! ## Parser: section scan -/

/-- Mirror of the `Sections` struct from `src/packet.rs`. -/
structure Sections where
  questions : Nat
  questionsOff : Nat
  answers : Nat
  answersOff : Nat
  authorities : Nat
  authoritiesOff : Nat
  additionals : Nat
  additionalsOff : Nat
deriving DecidableEq, Repr

/-- The `for _ in 0..n { offset = skip_question(..)? }` loop. -/
def scanQuestions (buf : List Nat) : Nat → Nat → Except Err Nat
  | 0, off => .ok off
  | n + 1, off =>
    match skipQuestion buf off with
    | .error e => .error e
    | .ok o => scanQuestions buf n o

/-- The `for _ in 0..n { offset = skip_resource(..)? }` loops. -/
def scanResources (buf : List Nat) : Nat → Nat → Except Err Nat
  | 0, off => .ok off
  | n + 1, off =>
    match skipResource buf off with
    | .error e => .error e
    | .ok o => scanResources buf n o

/-- Mirror of `collect_sections` from `src/packet.rs`. -/
def collectSections (buf : List Nat) : Except Err (Sections × Nat) :=
  match load2 buf 4 none with
  | .error e => .error e
  | .ok questions =>
  match load2 buf 6 none with
  | .error e => .error e
  | .ok answers =>
  match load2 buf 8 none with
  | .error e => .error e
  | .ok authorities =>
  match load2 buf 10 none with
  | .error e => .error e
  | .ok additionals =>
  match scanQuestions buf questions 12 with
  | .error e => .error e
  | .ok answersOff =>
  match scanResources buf answers answersOff with
  | .error e => .error e
  | .ok authoritiesOff =>
  match scanResources buf authorities authoritiesOff with
  | .error e => .error e
  | .ok additionalsOff =>
  match scanResources buf additionals additionalsOff with
  | .error e => .error e
  | .ok final =>
    .ok (⟨questions, 12, answers, answersOff, authorities, authoritiesOff,
          additionals, additionalsOff⟩, final)

/-- Mirror of `Packet::new` from `src/packet.rs`: scan the sections, then
reject only when the buffer holds more bytes than the scan consumed. -/
def packetNew (buf : List Nat) : Except Err Sections :=
  match collectSections buf with
  | .error e => .error e
  | .ok (s, off) =>
    if buf.length > off then .error .packetSizeMismatch else .ok s

/-! ## Parser: name resolution (`NameVisitor::segments`) -/

/-- Mirror of `NameVisitor::segments` from `src/packet.rs`, as observed by
its consumer `TryInto<String>`: the whole label list, or the first error.
`ptrCount` is the running pointer-dereference counter (starts at 0); the
check `ptrCount > 10` happens before each dereference. -/
def resolveSegs (buf : List Nat) (off ptrCount : Nat) :
    Except Err (List (List Nat)) :=
  match h1 : load1 buf off none with
  | .error e => .error e
  | .ok b =>
    if hp : b &&& 0xC0 = 0xC0 then
      if hc : ptrCount > 10 then .error .tooManyPointers
      else
        match load1 buf (off + 1) none with
        | .error e => .error e
        | .ok lo => resolveSegs buf ((b &&& 0x3F) * 256 + lo) (ptrCount + 1)
    else if b &&& 0xC0 = 0 then
      if b = 0 then .ok []
      else if buf.length < off + 1 + b then .error .shortBuffer
      else
        match resolveSegs buf (off + 1 + b) ptrCount with
        | .error e => .error e
        | .ok rest => .ok (((buf.drop (off + 1)).take b) :: rest)
    else .error .invalidNameSegmentBody
termination_by (11 - ptrCount, buf.length - off)
decreasing_by
  · apply Prod.Lex.left
    omega
  · have := load1_ok_lt h1
    apply Prod.Lex.right
    omega

/-- Same recursion as `resolveSegs`, additionally counting the pointer
dereferences actually performed (instrumentation used to state the
pointer-budget claims; not part of the source). -/
def resolveSegsCnt (buf : List Nat) (off ptrCount : Nat) :
    Except Err (List (List Nat) × Nat) :=
  match h1 : load1 buf off none with
  | .error e => .error e
  | .ok b =>
    if hp : b &&& 0xC0 = 0xC0 then
      if hc : ptrCount > 10 then .error .tooManyPointers
      else
        match load1 buf (off + 1) none with
        | .error e => .error e
        | .ok lo =>
          match resolveSegsCnt buf ((b &&& 0x3F) * 256 + lo) (ptrCount + 1) with
          | .error e => .error e
          | .ok (r, n) => .ok (r, n + 1)
    else if b &&& 0xC0 = 0 then
      if b = 0 then .ok ([], 0)
      else if buf.length < off + 1 + b then .error .shortBuffer
      else
        match resolveSegsCnt buf (off + 1 + b) ptrCount with
        | .error e => .error e
        | .ok (rest, n) => .ok ((((buf.drop (off + 1)).take b) :: rest), n)
    else .error .invalidNameSegmentBody
termination_by (11 - ptrCount, buf.length - off)
decreasing_by
  · apply Prod.Lex.left
    omega
  · have := load1_ok_lt h1
    apply Prod.Lex.right
    omega

/-- Executable UTF-8 validity of a byte list, mirroring what
`std::str::from_utf8` accepts (no overlongs, no surrogates, max
U+10FFFF). -/
def utf8Valid : List Nat → Bool
  | [] => true
  | b :: rest =>
    if b < 0x80 then utf8Valid rest
    else if 0xC2 ≤ b ∧ b ≤ 0xDF then
      match rest with
      | c1 :: rest2 => decide (0x80 ≤ c1 ∧ c1 ≤ 0xBF) && utf8Valid rest2
      | _ => false
    else if b = 0xE0 then
      match rest with
      | c1 :: c2 :: rest2 =>
        decide (0xA0 ≤ c1 ∧ c1 ≤ 0xBF) && decide (0x80 ≤ c2 ∧ c2 ≤ 0xBF) &&
          utf8Valid rest2
      | _ => false
    else if (0xE1 ≤ b ∧ b ≤ 0xEC) ∨ b = 0xEE ∨ b = 0xEF then
      match rest with
      | c1 :: c2 :: rest2 =>
        decide (0x80 ≤ c1 ∧ c1 ≤ 0xBF) && decide (0x80 ≤ c2 ∧ c2 ≤ 0xBF) &&
          utf8Valid rest2
      | _ => false
    else if b = 0xED then
      match rest with
      | c1 :: c2 :: rest2 =>
        decide (0x80 ≤ c1 ∧ c1 ≤ 0x9F) && decide (0x80 ≤ c2 ∧ c2 ≤ 0xBF) &&
          utf8Valid rest2
      | _ => false
    else if b = 0xF0 then
      match rest with
      | c1 :: c2 :: c3 :: rest2 =>
        decide (0x90 ≤ c1 ∧ c1 ≤ 0xBF) && decide (0x80 ≤ c2 ∧ c2 ≤ 0xBF) &&
          decide (0x80 ≤ c3 ∧ c3 ≤ 0xBF) && utf8Valid rest2
      | _ => false
    else if 0xF1 ≤ b ∧ b ≤ 0xF3 then
      match rest with
      | c1 :: c2 :: c3 :: rest2 =>
        decide (0x80 ≤ c1 ∧ c1 ≤ 0xBF) && decide (0x80 ≤ c2 ∧ c2 ≤ 0xBF) &&
          decide (0x80 ≤ c3 ∧ c3 ≤ 0xBF) && utf8Valid rest2
      | _ => false
    else if b = 0xF4 then
      match rest with
      | c1 :: c2 :: c3 :: rest2 =>
        decide (0x80 ≤ c1 ∧ c1 ≤ 0x8F) && decide (0x80 ≤ c2 ∧ c2 ≤ 0xBF) &&
          decide (0x80 ≤ c3 ∧ c3 ≤ 0xBF) && utf8Valid rest2
      | _ => false
    else false

/-- The per-segment checks and concatenation of
`TryInto<String> for &NameVisitor`: reject a segment containing a literal
dot, reject invalid UTF-8, otherwise append the segment and a dot. -/
def segsText : List (List Nat) → Except Err (List Nat)
  | [] => .ok []
  | s :: rest =>
    if s.contains 46 then .error .invalidNameSegmentBody
    else if utf8Valid s then
      match segsText rest with
      | .error e => .error e
      | .ok t => .ok (s ++ 46 :: t)
    else .error .invalidNameSegmentBody

/-- Canonical text form of the name at `off` (byte form of the `String`
produced by `TryInto<String> for NameVisitor`): resolve the segments, join
them with trailing dots, and yield `"."` for the root. -/
def nameText (buf : List Nat) (off : Nat) : Except Err (List Nat) :=
  match resolveSegs buf off 0 with
  | .error e => .error e
  | .ok segs =>
    match segsText segs with
    | .error e => .error e
    | .ok t => .ok (if t = [] then [46] else t)

/-! ## Parser: record decoding -/

/-- Parsed question before name materialization: the name is the
`NameVisitor` offset (mirror of `Question<NameVisitor>`). -/
structure PQuestion where
  nameOff : Nat
  typ : MU RType
  cls : MU RClass
deriving DecidableEq, Repr

/-- Mirror of `parse_question` from `src/packet.rs`. -/
def parseQuestion (buf : List Nat) (off : Nat) :
    Except Err (PQuestion × Nat) :=
  match skipName buf off with
  | .error e => .error e
  | .ok o =>
    match load2 buf o none with
    | .error e => .error e
    | .ok t =>
      match load2 buf (o + 2) none with
      | .error e => .error e
      | .ok c => .ok (⟨off, muTypeFrom t, muClassFrom c⟩, o + 4)

/-- Mirror of `ResourceData<NameVisitor, &[u8]>`: embedded names are
visitor offsets into the buffer. -/
inductive PRData where
  | a (octets : List Nat)
  | ns (off : Nat)
  | cname (off : Nat)
  | soa (nsOff mboxOff : Nat) (serial refresh retry expire minTtl : Nat)
  | ptr (off : Nat)
  | mx (preference : Nat) (off : Nat)
  | txt (ts : List (List Nat))
  | aaaa (octets : List Nat)
  | srv (priority weight port : Nat) (off : Nat)
  | unknown (typ : MU RType) (data : List Nat)
deriving DecidableEq, Repr

/-- The `while offset < limit` loop of the `TXT` arm of
`parse_resource_data`. -/
def txtChunks (buf : List Nat) (off limit : Nat) :
    Except Err (List (List Nat)) :=
  if h : off < limit then
    match load1 buf off (some limit) with
    | .error e => .error e
    | .ok len =>
      if off + 1 + len > buf.length then .error .shortBuffer
      else if off + 1 + len > limit then .error .packetSizeMismatch
      else
        match txtChunks buf (off + 1 + len) limit with
        | .error e => .error e
        | .ok rest => .ok (((buf.drop (off + 1)).take len) :: rest)
  else .ok []
termination_by limit - off

/-- Mirror of `parse_resource_data` from `src/packet.rs`.  The final arm
slices `packet[offset..limit]`; when `limit` exceeds the buffer length the
Rust code panics, modelled by `Err.oobSlice`. -/
def parseRData (buf : List Nat) (off limit : Nat) (typ : MU RType) :
    Except Err PRData :=
  match typ with
  | .known .A =>
    match loadBytes buf off 4 (some limit) with
    | .error e => .error e
    | .ok bs => .ok (.a bs)
  | .known .NS => .ok (.ns off)
  | .known .CNAME => .ok (.cname off)
  | .known .SOA =>
    match skipName buf off with
    | .error e => .error e
    | .ok o1 =>
      match skipName buf o1 with
      | .error e => .error e
      | .ok o2 =>
        match load4 buf o2 (some limit) with
        | .error e => .error e
        | .ok serial =>
          match load4 buf (o2 + 4) (some limit) with
          | .error e => .error e
          | .ok refresh =>
            match load4 buf (o2 + 8) (some limit) with
            | .error e => .error e
            | .ok retry =>
              match load4 buf (o2 + 12) (some limit) with
              | .error e => .error e
              | .ok expire =>
                match load4 buf (o2 + 16) (some limit) with
                | .error e => .error e
                | .ok minTtl =>
                  .ok (.soa off o1 serial refresh retry expire minTtl)
  | .known .PTR => .ok (.ptr off)
  | .known .MX =>
    match load2 buf off (some limit) with
    | .error e => .error e
    | .ok preference => .ok (.mx preference (off + 2))
  | .known .TXT =>
    match txtChunks buf off limit with
    | .error e => .error e
    | .ok ts => .ok (.txt ts)
  | .known .AAAA =>
    match loadBytes buf off 16 (some limit) with
    | .error e => .error e
    | .ok bs => .ok (.aaaa bs)
  | .known .SRV =>
    match load2 buf off (some limit) with
    | .error e => .error e
    | .ok priority =>
      match load2 buf (off + 2) (some limit) with
      | .error e => .error e
      | .ok weight =>
        match load2 buf (off + 4) (some limit) with
        | .error e => .error e
        | .ok port => .ok (.srv priority weight port (off + 6))
  | t =>
    if buf.length < limit then .error .oobSlice
    else .ok (.unknown t ((buf.drop off).take (limit - off)))

/-- Parsed resource before name materialization
(mirror of `Resource<NameVisitor, &[u8]>`). -/
structure PResource where
  nameOff : Nat
  cls : MU RClass
  ttl : Nat
  data : PRData
deriving DecidableEq, Repr

/-- Mirror of `parse_resource` from `src/packet.rs`. -/
def parseResource (buf : List Nat) (off : Nat) :
    Except Err (PResource × Nat) :=
  match skipName buf off with
  | .error e => .error e
  | .ok o =>
    match load2 buf o none with
    | .error e => .error e
    | .ok t =>
      match load2 buf (o + 2) none with
      | .error e => .error e
      | .ok c =>
        match load4 buf (o + 4) none with
        | .error e => .error e
        | .ok ttl =>
          match load2 buf (o + 8) none with
          | .error e => .error e
          | .ok dataLen =>
            match parseRData buf (o + 10) (o + 10 + dataLen) (muTypeFrom t) with
            | .error e => .error e
            | .ok data =>
              .ok (⟨off, muClassFrom c, ttl, data⟩, o + 10 + dataLen)

/-! ## Parser: materialization of whole sections

The section iterators (`questions()`, `answers()`, ...) parse records on
demand; materializing every record and converting every name to canonical
text (via `try_into_owned`) is modelled by the following functions. -/

/-- Materialize a parsed question: resolve its name to canonical text. -/
def matQuestion (buf : List Nat) (q : PQuestion) : Except Err Question :=
  match nameText buf q.nameOff with
  | .error e => .error e
  | .ok n => .ok ⟨n, q.typ, q.cls⟩

/-- Materialize parsed resource data: resolve all embedded names. -/
def matRData (buf : List Nat) : PRData → Except Err RData
  | .a bs => .ok (.a bs)
  | .ns o =>
    match nameText buf o with
    | .error e => .error e
    | .ok n => .ok (.ns n)
  | .cname o =>
    match nameText buf o with
    | .error e => .error e
    | .ok n => .ok (.cname n)
  | .soa nsOff mboxOff serial refresh retry expire minTtl =>
    match nameText buf nsOff with
    | .error e => .error e
    | .ok n1 =>
      match nameText buf mboxOff with
      | .error e => .error e
      | .ok n2 => .ok (.soa n1 n2 serial refresh retry expire minTtl)
  | .ptr o =>
    match nameText buf o with
    | .error e => .error e
    | .ok n => .ok (.ptr n)
  | .mx preference o =>
    match nameText buf o with
    | .error e => .error e
    | .ok n => .ok (.mx preference n)
  | .txt ts => .ok (.txt ts)
  | .aaaa bs => .ok (.aaaa bs)
  | .srv p w port o =>
    match nameText buf o with
    | .error e => .error e
    | .ok n => .ok (.srv p w port n)
  | .unknown typ data => .ok (.unknown typ data)

/-- Materialize a parsed resource. -/
def matResource (buf : List Nat) (r : PResource) : Except Err Resource :=
  match nameText buf r.nameOff with
  | .error e => .error e
  | .ok n =>
    match matRData buf r.data with
    | .error e => .error e
    | .ok d => .ok ⟨n, r.cls, r.ttl, d⟩

/-- Iterate the questions section and materialize every record. -/
def matQuestions (buf : List Nat) : Nat → Nat → Except Err (List Question)
  | 0, _ => .ok []
  | n + 1, off =>
    match parseQuestion buf off with
    | .error e => .error e
    | .ok (q, o) =>
      match matQuestion buf q with
      | .error e => .error e
      | .ok mq =>
        match matQuestions buf n o with
        | .error e => .error e
        | .ok rest => .ok (mq :: rest)

/-- Iterate a resource section and materialize every record. -/
def matResources (buf : List Nat) : Nat → Nat → Except Err (List Resource)
  | 0, _ => .ok []
  | n + 1, off =>
    match parseResource buf off with
    | .error e => .error e
    | .ok (r, o) =>
      match matResource buf r with
      | .error e => .error e
      | .ok mr =>
        match matResources buf n o with
        | .error e => .error e
        | .ok rest => .ok (mr :: rest)

/-! ## Builder

Model of `src/builder.rs` for the standard `Cursor<Vec<u8>>` sink created
at position 0 (`begin_pos = 0`, `stream_position()` = length of `out`).
The phase types `WantsHeader → ... → WantsAdditionals` are represented by
the order in which the functions below are composed.  A failing operation
returns `BRes.fail` carrying the builder state at the moment of the
error, matching the bytes the Rust sink has received at that point. -/

/-- The `Builder` struct state: bytes written so far, the compression
dictionary (`name_ptrs`), and the four section counters. -/
structure BState where
  out : List Nat
  dict : List (List Nat × Nat)
  questions : Nat
  answers : Nat
  authorities : Nat
  additionals : Nat
deriving DecidableEq, Repr

/-- Result of a builder operation; errors keep the state. -/
inductive BRes (α : Type) where
  | ok (a : α) (s : BState)
  | fail (e : Err) (s : BState)
deriving DecidableEq, Repr

/-- `Builder::write` (for the in-memory sink, an append). -/
def bwrite (s : BState) (bs : List Nat) : BState :=
  { s with out := s.out ++ bs }

/-- In-place overwrite at `pos` (the effect of seek + `write_all` + seek
back in `Builder::write_at` and the length backpatch). -/
def storeAt (l : List Nat) (pos : Nat) (bs : List Nat) : List Nat :=
  l.take pos ++ bs ++ l.drop (pos + bs.length)

/-- `Builder::write_at`. -/
def bwriteAt (s : BState) (pos : Nat) (bs : List Nat) : BState :=
  { s with out := storeAt s.out pos bs }

/-- `BTreeMap::get` on the compression dictionary. -/
def dictGet : List (List Nat × Nat) → List Nat → Option Nat
  | [], _ => none
  | (k, v) :: rest, key => if k = key then some v else dictGet rest key

/-- The byte form of the suffix `name[segment_begin_index..]` headed by
the given segments: each segment followed by its dot. -/
def joinSegs : List (List Nat) → List Nat
  | [] => []
  | s :: rest => s ++ 46 :: joinSegs rest

/-- Split a name's bytes at every dot; bytes after the last dot are not
part of any segment (mirrors the `dot_indexes` iteration of
`pack_name`, which visits only the byte ranges ending at a dot). -/
def dotSplitGo (acc : List Nat) : List Nat → List (List Nat)
  | [] => []
  | b :: rest =>
    if b = 46 then acc :: dotSplitGo [] rest
    else dotSplitGo (acc ++ [b]) rest

def dotSplit (n : List Nat) : List (List Nat) := dotSplitGo [] n

/-- The per-segment loop of `pack_name`, recursing over the dot-separated
segments; the dictionary key for the current position is the byte form of
the remaining segments (`name[segment_begin_index..]`).  Order of
operations mirrors the source: segment size check, dictionary lookup
(emit a pointer and stop on a hit), dictionary insert when the current
offset fits in 14 bits, then the length byte and the label bytes. -/
def packSegs (s : BState) : List (List Nat) → BRes Unit
  | [] => .ok () (bwrite s [0])
  | seg :: rest =>
    if seg.length = 0 ∨ 64 ≤ seg.length then
      .fail (.invalidNameSegmentSize seg.length) s
    else
      match dictGet s.dict (joinSegs (seg :: rest)) with
      | some ptr => .ok () (bwrite s (toBE16 (ptr ||| 0xC000)))
      | none =>
        let s1 :=
          if s.out.length ≤ 0x3FFF then
            { s with dict := (joinSegs (seg :: rest), s.out.length) :: s.dict }
          else s
        packSegs (bwrite (bwrite s1 [seg.length]) seg) rest

/-- Mirror of `Builder::pack_name`. -/
def packName (s : BState) (name : List Nat) : BRes Unit :=
  if name = [46] then .ok () (bwrite s [0])
  else if name.getLast? ≠ some 46 then .fail .nonCanonicalName s
  else packSegs s (dotSplit name)

/-- Mirror of `Builder::pack_question`. -/
def packQuestion (s : BState) (q : Question) : BRes Unit :=
  match packName s q.name with
  | .fail e s2 => .fail e s2
  | .ok _ s2 =>
    .ok () (bwrite (bwrite s2 (toBE16 (muTypeInto q.typ)))
      (toBE16 (muClassInto q.cls)))

/-- The type derived from the `ResourceData` variant in
`Builder::pack_resource`. -/
def rdataTyp : RData → MU RType
  | .cname _ => .known .CNAME
  | .mx _ _ => .known .MX
  | .ns _ => .known .NS
  | .ptr _ => .known .PTR
  | .soa _ _ _ _ _ _ _ => .known .SOA
  | .txt _ => .known .TXT
  | .srv _ _ _ _ => .known .SRV
  | .a _ => .known .A
  | .aaaa _ => .known .AAAA
  | .unknown typ _ => typ

/-- The `TXT` emission loop of `pack_resource`. -/
def packTxt (s : BState) : List (List Nat) → BRes Unit
  | [] => .ok () s
  | t :: rest =>
    if 255 < t.length then .fail .textTooLong s
    else packTxt (bwrite (bwrite s [t.length]) t) rest

/-- The body emission of `pack_resource` (the `match &resource.data`
block). -/
def packRData (s : BState) : RData → BRes Unit
  | .cname n => packName s n
  | .mx preference m => packName (bwrite s (toBE16 preference)) m
  | .ns n => packName s n
  | .ptr n => packName s n
  | .soa ns mbox serial refresh retry expire minTtl =>
    match packName s ns with
    | .fail e s2 => .fail e s2
    | .ok _ s2 =>
      match packName s2 mbox with
      | .fail e s3 => .fail e s3
      | .ok _ s3 =>
        .ok () (bwrite s3 (toBE32 serial ++ toBE32 refresh ++ toBE32 retry ++
          toBE32 expire ++ toBE32 minTtl))
  | .txt ts => packTxt s ts
  | .srv priority weight port target =>
    packName (bwrite s (toBE16 priority ++ toBE16 weight ++ toBE16 port)) target
  | .a octets => .ok () (bwrite s octets)
  | .aaaa octets => .ok () (bwrite s octets)
  | .unknown _ data => .ok () (bwrite s data)

/-- Mirror of `Builder::pack_resource`: name, type, class, ttl, a 2-byte
zero placeholder, the body, then the backpatch of the measured body
length (`(writing_pos - len_pos - 2) as u16`) at the placeholder. -/
def packResource (s : BState) (r : Resource) : BRes Unit :=
  match packName s r.name with
  | .fail e s2 => .fail e s2
  | .ok _ s2 =>
    let s3 := bwrite s2 (toBE16 (muTypeInto (rdataTyp r.data)) ++
      toBE16 (muClassInto r.cls) ++ toBE32 r.ttl)
    let lenPos := s3.out.length
    let s4 := bwrite s3 (toBE16 0)
    match packRData s4 r.data with
    | .fail e s5 => .fail e s5
    | .ok _ s5 =>
      .ok () (bwriteAt s5 lenPos (toBE16 (s5.out.length - lenPos - 2)))

/-- The flag word computed by `Builder::write_header`:
`(resp << 15) | ((opcode & 0b111) << 11) | (flags & HeaderFlags::all()) |
(rcode & 0b1111)`. -/
def headerBits (h : Header) : Nat :=
  (if h.resp then 32768 else 0) ||| ((h.opcode &&& 7) <<< 11) |||
    (h.flags &&& 0x7F0) ||| (muRCodeInto h.rcode &&& 15)

/-- Mirror of `Builder::write_header`: id, flag word, and four zero
count fields (all 16-bit big-endian). -/
def writeHeader (s : BState) (h : Header) : BState :=
  bwrite s (toBE16 h.id ++ toBE16 (headerBits h) ++ toBE16 0 ++ toBE16 0 ++
    toBE16 0 ++ toBE16 0)

/-- Mirror of `Builder::write_question` (counter incremented only after a
successful pack). -/
def writeQuestion (s : BState) (q : Question) : BRes Unit :=
  match packQuestion s q with
  | .fail e s2 => .fail e s2
  | .ok _ s2 => .ok () { s2 with questions := s2.questions + 1 }

def writeAnswer (s : BState) (r : Resource) : BRes Unit :=
  match packResource s r with
  | .fail e s2 => .fail e s2
  | .ok _ s2 => .ok () { s2 with answers := s2.answers + 1 }

def writeAuthority (s : BState) (r : Resource) : BRes Unit :=
  match packResource s r with
  | .fail e s2 => .fail e s2
  | .ok _ s2 => .ok () { s2 with authorities := s2.authorities + 1 }

def writeAdditional (s : BState) (r : Resource) : BRes Unit :=
  match packResource s r with
  | .fail e s2 => .fail e s2
  | .ok _ s2 => .ok () { s2 with additionals := s2.additionals + 1 }

/-- `Builder::finish_questions`: backpatch the questions count at offset
`begin_pos + 4`. -/
def finishQuestions (s : BState) : BState := bwriteAt s 4 (toBE16 s.questions)

def finishAnswers (s : BState) : BState := bwriteAt s 6 (toBE16 s.answers)

def finishAuthorities (s : BState) : BState :=
  bwriteAt s 8 (toBE16 s.authorities)

/-- `Builder::finish_additionals` backpatches the additionals count and
yields the sink. -/
def finishAdditionals (s : BState) : BState :=
  bwriteAt s 10 (toBE16 s.additionals)

/-- A sequence of `write_question` calls. -/
def writeQuestionList (s : BState) : List Question → BRes Unit
  | [] => .ok () s
  | q :: rest =>
    match writeQuestion s q with
    | .fail e s2 => .fail e s2
    | .ok _ s2 => writeQuestionList s2 rest

def writeAnswerList (s : BState) : List Resource → BRes Unit
  | [] => .ok () s
  | r :: rest =>
    match writeAnswer s r with
    | .fail e s2 => .fail e s2
    | .ok _ s2 => writeAnswerList s2 rest

def writeAuthorityList (s : BState) : List Resource → BRes Unit
  | [] => .ok () s
  | r :: rest =>
    match writeAuthority s r with
    | .fail e s2 => .fail e s2
    | .ok _ s2 => writeAuthorityList s2 rest

def writeAdditionalList (s : BState) : List Resource → BRes Unit
  | [] => .ok () s
  | r :: rest =>
    match writeAdditional s r with
    | .fail e s2 => .fail e s2
    | .ok _ s2 => writeAdditionalList s2 rest

/-- The builder state produced by `Builder::new(Cursor::new(Vec::new()))`. -/
def bnew : BState := ⟨[], [], 0, 0, 0, 0⟩

/-- Driving the builder through all phases in the statically enforced
order: header, the three record sections with their `finish_*` calls, and
the final buffer from `finish_additionals`. -/
def buildMessage (h : Header) (qs : List Question)
    (ans aus ads : List Resource) : BRes (List Nat) :=
  match writeQuestionList (writeHeader bnew h) qs with
  | .fail e s => .fail e s
  | .ok _ s2 =>
    match writeAnswerList (finishQuestions s2) ans with
    | .fail e s => .fail e s
    | .ok _ s3 =>
      match writeAuthorityList (finishAnswers s3) aus with
      | .fail e s => .fail e s
      | .ok _ s4 =>
        match writeAdditionalList (finishAuthorities s4) ads with
        | .fail e s => .fail e s
        | .ok _ s5 =>
          let s6 := finishAdditionals s5
          .ok s6.out s6

/-! ## Claim-support definitions -/

/-- Whether a builder result is a success. -/
def BRes.isOk {α : Type} : BRes α → Bool
  | .ok _ _ => true
  | .fail _ _ => false

/-- Whether an `Except` result is a success. -/
def exOk {ε α : Type} : Except ε α → Bool
  | .ok _ => true
  | .error _ => false

/-- Modelled from the spec (§4.1 “Header encoding”), for comparison with
the source's `headerBits`: bits 14..11 are the low FOUR bits of the
supplied opcode. -/
def headerBitsSpec (h : Header) : Nat :=
  (if h.resp then 32768 else 0) ||| ((h.opcode &&& 15) <<< 11) |||
    (h.flags &&& 0x7F0) ||| (muRCodeInto h.rcode &&& 15)

/-- A canonical name legal for encoding per §3/§4.1: wire bytes, trailing
dot (or the bare root), every dot-separated label 1..=63 bytes of valid
UTF-8.  The total-length bound is the §3 wire limit (length prefixes plus
root terminator, i.e. `n.length + 1`, at most 255). -/
def legalName (n : List Nat) : Prop :=
  n = [46] ∨
    ((∀ b ∈ n, b < 256) ∧ n.getLast? = some 46 ∧ n.length + 1 ≤ 255 ∧
      ∀ s ∈ dotSplit n, 1 ≤ s.length ∧ s.length ≤ 63 ∧ utf8Valid s = true)

/-- A `MaybeUnknown<Type>` value that survives the encode/decode round
trip: the wire primitive fits `u16` and decodes back to the same value. -/
def legalMUType (t : MU RType) : Prop :=
  muTypeInto t < 65536 ∧ muTypeFrom (muTypeInto t) = t

def legalMUClass (c : MU RClass) : Prop :=
  muClassInto c < 65536 ∧ muClassFrom (muClassInto c) = c

/-- The record types whose bodies `parse_resource_data` decodes
structurally (everything else falls through to the `Unknown` arm). -/
def parsedTyp (t : MU RType) : Prop :=
  t = .known .A ∨ t = .known .NS ∨ t = .known .CNAME ∨ t = .known .SOA ∨
    t = .known .PTR ∨ t = .known .MX ∨ t = .known .TXT ∨
    t = .known .AAAA ∨ t = .known .SRV

/-- Legality of a resource body per §4.1.2 (bounds are the wire-format
field widths; `unknown` requires a type code that the parser also treats
as opaque). -/
def legalRData : RData → Prop
  | .a octets => octets.length = 4 ∧ ∀ b ∈ octets, b < 256
  | .ns n => legalName n
  | .cname n => legalName n
  | .soa ns mbox serial refresh retry expire minTtl =>
    legalName ns ∧ legalName mbox ∧ serial < 4294967296 ∧
      refresh < 4294967296 ∧ retry < 4294967296 ∧ expire < 4294967296 ∧
      minTtl < 4294967296
  | .ptr n => legalName n
  | .mx preference m => preference < 65536 ∧ legalName m
  | .txt ts =>
    (∀ t ∈ ts, t.length ≤ 255 ∧ ∀ b ∈ t, b < 256) ∧
      (ts.map (fun t => t.length + 1)).sum ≤ 65535
  | .aaaa octets => octets.length = 16 ∧ ∀ b ∈ octets, b < 256
  | .srv priority weight port target =>
    priority < 65536 ∧ weight < 65536 ∧ port < 65536 ∧ legalName target
  | .unknown typ data =>
    legalMUType typ ∧ ¬ parsedTyp typ ∧ data.length ≤ 65535 ∧
      ∀ b ∈ data, b < 256

def legalQuestion (q : Question) : Prop :=
  legalName q.name ∧ legalMUType q.typ ∧ legalMUClass q.cls

def legalResource (r : Resource) : Prop :=
  legalName r.name ∧ legalMUClass r.cls ∧ r.ttl < 4294967296 ∧
    legalRData r.data

/-- The name of the `k+1`-st question of the pointer-chain counterexample
build: `"a."`, `"b.a."`, `"c.b.a."`, ... -/
def chainName : Nat → List Nat
  | 0 => []
  | k + 1 => [97 + k, 46] ++ chainName k

/-- Thirteen questions whose names form a compression chain 13 pointers
deep. -/
def chainQs : List Question :=
  (List.range 13).map (fun k => ⟨chainName (k + 1), .known .A, .known .INET⟩)

/-- A fixed header used by concrete examples. -/
def hdr0 : Header := ⟨0, false, 0, .known .Success, 0⟩

/-- The buffer produced by building `chainQs` (13 questions, no
resources). -/
def chainBuf : List Nat :=
  match buildMessage hdr0 chainQs [] [] [] with
  | .ok o _ => o
  | .fail _ _ => []

/-- C3 counterexample buffer: a chain of 11 pointers, each to the next,
ending in a root byte. -/
def elevenPtrBuf : List Nat :=
  (List.range 11).flatMap (fun k => [192, 2 * (k + 1)]) ++ [0]

/-- The spec's §8.5 self-pointing cycle at offset 12. -/
def cycleBuf : List Nat := [0,0,0,0,0,0,0,0,0,0,0,0,192,12]

/-- C4 counterexample: header declares one question, but the question is
a bare root name with no type/class bytes; the scan runs 4 bytes past the
end of the 13-byte buffer. -/
def overrunBuf : List Nat := [0,0,0,0,0,1,0,0,0,0,0,0,0]

/-- C7 counterexample: two questions; the second question's name is a
pointer to offset 15, the high byte of the first question's TYPE field. -/
def overlapBuf : List Nat :=
  [0,0,0,0,0,2,0,0,0,0,0,0, 1,97,0, 0,1, 0,1, 192,15, 0,1, 0,1]

/-- `overlapBuf` after `QuestionsCursor::set_type(Unknown(256))` on the
first question (bytes 15..17 overwritten with `[1, 0]`). -/
def overlapBufM : List Nat :=
  [0,0,0,0,0,2,0,0,0,0,0,0, 1,97,0, 1,0, 0,1, 192,15, 0,1, 0,1]

/-- C9 counterexample name: four labels of 63 bytes each; its encoded
wire form is 257 bytes, over the 255-byte limit the spec claims is
enforced. -/
def longName : List Nat :=
  (List.replicate 63 97 ++ [46]) ++ (List.replicate 63 98 ++ [46]) ++
    (List.replicate 63 99 ++ [46]) ++ (List.replicate 63 100 ++ [46])

/-- Mirror of `QuestionsCursor::set_type`: overwrite the 2-byte type
field of the question at `pos` (cursor position) in a mutable buffer. -/
def cursorSetType (buf : List Nat) (pos : Nat) (v : Nat) :
    Except Err (List Nat) :=
  match skipName buf pos with
  | .error e => .error e
  | .ok o => storeBytes buf o (toBE16 v)

/-- Mirror of `QuestionsCursor::set_class`. -/
def cursorSetClassQ (buf : List Nat) (pos : Nat) (v : Nat) :
    Except Err (List Nat) :=
  match skipName buf pos with
  | .error e => .error e
  | .ok o => storeBytes buf (o + 2) (toBE16 v)

/-- Mirror of `ResourcesCursor::set_class`. -/
def cursorSetClassR (buf : List Nat) (pos : Nat) (v : Nat) :
    Except Err (List Nat) :=
  match skipName buf pos with
  | .error e => .error e
  | .ok o => storeBytes buf (o + 2) (toBE16 v)

/-- Mirror of `ResourcesCursor::set_ttl`. -/
def cursorSetTtl (buf : List Nat) (pos : Nat) (v : Nat) :
    Except Err (List Nat) :=
  match skipName buf pos with
  | .error e => .error e
  | .ok o => storeBytes buf (o + 4) (toBE32 v)

/-- `"example.org"` (no trailing dot), for the non-canonical-name claim. -/
def exName : List Nat := [101,120,97,109,112,108,101,46,111,114,103]

/-- Question for `"a.b.c."`. -/
def q5a : Question := ⟨[97,46,98,46,99,46], .known .A, .known .INET⟩

/-- Question for `"b.c."`. -/
def q5b : Question := ⟨[98,46,99,46], .known .A, .known .INET⟩

/-- The round-trip example message: the spec §8.4 compression scenario
(questions `a.b.c.` and `b.c.`) plus one answer, one authority and one
additional record exercising several body kinds. -/
def rtAns : List Resource :=
  [⟨[97,46,98,46,99,46], .known .INET, 255, .a [1,2,3,4]⟩,
   ⟨[98,46,99,46], .known .INET, 300, .txt [[104,105],[33]]⟩]

def rtAus : List Resource :=
  [⟨[98,46,99,46], .known .INET, 86400, .soa [110,46,98,46,99,46] [98,46,99,46] 1 2 3 4 5⟩]

def rtAds : List Resource :=
  [⟨[97,46,98,46,99,46], .known .INET, 0, .unknown (.known .OPT) [0,1,2]⟩,
   ⟨[109,46,99,46], .known .ANY, 1, .mx 7 [97,46,98,46,99,46]⟩]

/-! ## Fuel-indexed twins

Structural (fuel-indexed) twins of the three loop-based parser functions,
used to evaluate them on concrete buffers through the kernel; `none`
means the fuel ran out.  Their agreement with the real functions is the
content of the `*F_sound` lemmas below. -/

def skipNameF : Nat → List Nat → Nat → Option (Except Err Nat)
  | 0, _, _ => none
  | fuel + 1, buf, off =>
    match load1 buf off none with
    | .error e => some (.error e)
    | .ok b =>
      if b &&& 0xC0 = 0xC0 then some (.ok (off + 2))
      else if b &&& 0xC0 = 0 then
        if b = 0 then some (.ok (off + 1)) else skipNameF fuel buf (off + 1 + b)
      else some (.error .invalidNameSegmentBody)

def resolveSegsF : Nat → List Nat → Nat → Nat →
    Option (Except Err (List (List Nat)))
  | 0, _, _, _ => none
  | fuel + 1, buf, off, ptrCount =>
    match load1 buf off none with
    | .error e => some (.error e)
    | .ok b =>
      if b &&& 0xC0 = 0xC0 then
        if ptrCount > 10 then some (.error .tooManyPointers)
        else
          match load1 buf (off + 1) none with
          | .error e => some (.error e)
          | .ok lo => resolveSegsF fuel buf ((b &&& 0x3F) * 256 + lo) (ptrCount + 1)
      else if b &&& 0xC0 = 0 then
        if b = 0 then some (.ok [])
        else if buf.length < off + 1 + b then some (.error .shortBuffer)
        else
          match resolveSegsF fuel buf (off + 1 + b) ptrCount with
          | none => none
          | some (.error e) => some (.error e)
          | some (.ok rest) => some (.ok (((buf.drop (off + 1)).take b) :: rest))
      else some (.error .invalidNameSegmentBody)

def resolveSegsCntF : Nat → List Nat → Nat → Nat →
    Option (Except Err (List (List Nat) × Nat))
  | 0, _, _, _ => none
  | fuel + 1, buf, off, ptrCount =>
    match load1 buf off none with
    | .error e => some (.error e)
    | .ok b =>
      if b &&& 0xC0 = 0xC0 then
        if ptrCount > 10 then some (.error .tooManyPointers)
        else
          match load1 buf (off + 1) none with
          | .error e => some (.error e)
          | .ok lo =>
            match resolveSegsCntF fuel buf ((b &&& 0x3F) * 256 + lo) (ptrCount + 1) with
            | none => none
            | some (.error e) => some (.error e)
            | some (.ok (r, n)) => some (.ok (r, n + 1))
      else if b &&& 0xC0 = 0 then
        if b = 0 then some (.ok ([], 0))
        else if buf.length < off + 1 + b then some (.error .shortBuffer)
        else
          match resolveSegsCntF fuel buf (off + 1 + b) ptrCount with
          | none => none
          | some (.error e) => some (.error e)
          | some (.ok (rest, n)) =>
            some (.ok ((((buf.drop (off + 1)).take b) :: rest), n))
      else some (.error .invalidNameSegmentBody)

def txtChunksF : Nat → List Nat → Nat → Nat →
    Option (Except Err (List (List Nat)))
  | 0, _, _, _ => none
  | fuel + 1, buf, off, limit =>
    if off < limit then
      match load1 buf off (some limit) with
      | .error e => some (.error e)
      | .ok len =>
        if off + 1 + len > buf.length then some (.error .shortBuffer)
        else if off + 1 + len > limit then some (.error .packetSizeMismatch)
        else
          match txtChunksF fuel buf (off + 1 + len) limit with
          | none => none
          | some (.error e) => some (.error e)
          | some (.ok rest) => some (.ok (((buf.drop (off + 1)).take len) :: rest))
    else some (.ok [])

/-- Extract the built bytes of a builder result (empty on failure). -/
def bresBytes : BRes (List Nat) → List Nat
  | .ok o _ => o
  | .fail _ _ => []

/-- The wire bytes of the §8.4 compression example: header with two
questions, `a.b.c.` encoded plainly at offset 12, and `b.c.` encoded as
the 2-byte pointer `C0 0E` to offset 14 at offset 23. -/
def buf5 : List Nat :=
  [0,0, 0,0, 0,2, 0,0, 0,0, 0,0,
   1,97,1,98,1,99,0, 0,1, 0,1,
   192,14, 0,1, 0,1]

/-- The output bytes of `s2` extend those of `s` (builder writes are
append-only except for the in-place backpatches inside the freshly
written region). -/
def outGrows (s s2 : BState) : Prop := ∃ t, s2.out = s.out ++ t

/-- The four section counters agree between two builder states. -/
def cntSame (s s2 : BState) : Prop :=
  s2.questions = s.questions ∧ s2.answers = s.answers ∧
    s2.authorities = s.authorities ∧ s2.additionals = s.additionals

/-! ## Theorems

First the generic lemmas shared by several claims, then one subsection
per claim of the specification audit. -/

theorem skipNameF_sound : ∀ (fuel : Nat) (buf : List Nat) (off : Nat)
    (r : Except Err Nat), skipNameF fuel buf off = some r →
    skipName buf off = r := by
  intro fuel
  induction fuel with
  | zero => intro buf off r h; simp [skipNameF] at h
  | succ fuel ih =>
    intro buf off r h
    unfold skipNameF at h
    rw [skipName]
    cases hb : load1 buf off none with
    | error e => rw [hb] at h; simp at h; simp [h]
    | ok b =>
      rw [hb] at h
      dsimp only at h ⊢
      by_cases h1 : b &&& 0xC0 = 0xC0
      · rw [if_pos h1] at h ⊢; simp at h; simp [h]
      · rw [if_neg h1] at h ⊢
        by_cases h2 : b &&& 0xC0 = 0
        · rw [if_pos h2] at h ⊢
          by_cases h3 : b = 0
          · rw [if_pos h3] at h ⊢; simp at h; simp [h]
          · rw [if_neg h3] at h ⊢; exact ih buf (off + 1 + b) r h
        · rw [if_neg h2] at h ⊢; simp at h; simp [h]

theorem resolveSegsF_sound : ∀ (fuel : Nat) (buf : List Nat) (off c : Nat)
    (r : Except Err (List (List Nat))), resolveSegsF fuel buf off c = some r →
    resolveSegs buf off c = r := by
  intro fuel
  induction fuel with
  | zero => intro buf off c r h; simp [resolveSegsF] at h
  | succ fuel ih =>
    intro buf off c r h
    unfold resolveSegsF at h
    rw [resolveSegs]
    cases hb : load1 buf off none with
    | error e => rw [hb] at h; simp at h; simp [h]
    | ok b =>
      rw [hb] at h
      dsimp only at h ⊢
      by_cases h1 : b &&& 0xC0 = 0xC0
      · rw [if_pos h1] at h
        rw [dif_pos h1]
        by_cases hc : c > 10
        · rw [if_pos hc] at h; rw [dif_pos hc]; simp at h; simp [h]
        · rw [if_neg hc] at h; rw [dif_neg hc]
          cases hlo : load1 buf (off + 1) none with
          | error e => rw [hlo] at h; simp at h; simp [h]
          | ok lo => rw [hlo] at h; exact ih _ _ _ _ h
      · rw [if_neg h1] at h; rw [dif_neg h1]
        by_cases h2 : b &&& 0xC0 = 0
        · rw [if_pos h2] at h ⊢
          by_cases h3 : b = 0
          · rw [if_pos h3] at h ⊢; simp at h; simp [h]
          · rw [if_neg h3] at h ⊢
            by_cases h4 : buf.length < off + 1 + b
            · rw [if_pos h4] at h ⊢; simp at h; simp [h]
            · rw [if_neg h4] at h ⊢
              cases hr : resolveSegsF fuel buf (off + 1 + b) c with
              | none => rw [hr] at h; simp at h
              | some rr =>
                rw [hr] at h
                rw [ih _ _ _ _ hr]
                cases rr with
                | error e => simp at h; simp [h]
                | ok rest => simp at h; simp [← h]
        · rw [if_neg h2] at h ⊢; simp at h; simp [h]

theorem resolveSegsCntF_sound : ∀ (fuel : Nat) (buf : List Nat) (off c : Nat)
    (r : Except Err (List (List Nat) × Nat)),
    resolveSegsCntF fuel buf off c = some r → resolveSegsCnt buf off c = r := by
  intro fuel
  induction fuel with
  | zero => intro buf off c r h; simp [resolveSegsCntF] at h
  | succ fuel ih =>
    intro buf off c r h
    unfold resolveSegsCntF at h
    rw [resolveSegsCnt]
    cases hb : load1 buf off none with
    | error e => rw [hb] at h; simp at h; simp [h]
    | ok b =>
      rw [hb] at h
      dsimp only at h ⊢
      by_cases h1 : b &&& 0xC0 = 0xC0
      · rw [if_pos h1] at h
        rw [dif_pos h1]
        by_cases hc : c > 10
        · rw [if_pos hc] at h; rw [dif_pos hc]; simp at h; simp [h]
        · rw [if_neg hc] at h; rw [dif_neg hc]
          cases hlo : load1 buf (off + 1) none with
          | error e => rw [hlo] at h; simp at h; simp [h]
          | ok lo =>
            rw [hlo] at h
            dsimp only at h ⊢
            cases hr : resolveSegsCntF fuel buf ((b &&& 0x3F) * 256 + lo) (c + 1) with
            | none => rw [hr] at h; simp at h
            | some rr =>
              rw [hr] at h
              rw [ih _ _ _ _ hr]
              cases rr with
              | error e => simp at h; simp [h]
              | ok p =>
                obtain ⟨r0, n0⟩ := p
                simp at h; simp [← h]
      · rw [if_neg h1] at h; rw [dif_neg h1]
        by_cases h2 : b &&& 0xC0 = 0
        · rw [if_pos h2] at h ⊢
          by_cases h3 : b = 0
          · rw [if_pos h3] at h ⊢; simp at h; simp [h]
          · rw [if_neg h3] at h ⊢
            by_cases h4 : buf.length < off + 1 + b
            · rw [if_pos h4] at h ⊢; simp at h; simp [h]
            · rw [if_neg h4] at h ⊢
              cases hr : resolveSegsCntF fuel buf (off + 1 + b) c with
              | none => rw [hr] at h; simp at h
              | some rr =>
                rw [hr] at h
                rw [ih _ _ _ _ hr]
                cases rr with
                | error e => simp at h; simp [h]
                | ok p =>
                  obtain ⟨rest, n0⟩ := p
                  simp at h; simp [← h]
        · rw [if_neg h2] at h ⊢; simp at h; simp [h]

theorem txtChunksF_sound : ∀ (fuel : Nat) (buf : List Nat) (off limit : Nat)
    (r : Except Err (List (List Nat))), txtChunksF fuel buf off limit = some r →
    txtChunks buf off limit = r := by
  intro fuel
  induction fuel with
  | zero => intro buf off limit r h; simp [txtChunksF] at h
  | succ fuel ih =>
    intro buf off limit r h
    unfold txtChunksF at h
    rw [txtChunks]
    by_cases h0 : off < limit
    · rw [if_pos h0] at h
      rw [dif_pos h0]
      cases hb : load1 buf off (some limit) with
      | error e => rw [hb] at h; simp at h; simp [h]
      | ok len =>
        rw [hb] at h
        dsimp only at h ⊢
        by_cases h1 : off + 1 + len > buf.length
        · rw [if_pos h1] at h ⊢; simp at h; simp [h]
        · rw [if_neg h1] at h ⊢
          by_cases h2 : off + 1 + len > limit
          · rw [if_pos h2] at h ⊢; simp at h; simp [h]
          · rw [if_neg h2] at h ⊢
            cases hr : txtChunksF fuel buf (off + 1 + len) limit with
            | none => rw [hr] at h; simp at h
            | some rr =>
              rw [hr] at h
              rw [ih _ _ _ _ hr]
              cases rr with
              | error e => simp at h; simp [h]
              | ok rest => simp at h; simp [← h]
    · rw [if_neg h0] at h
      rw [dif_neg h0]
      simp at h; simp [h]

/-! ### Bit arithmetic helpers -/

theorem and_mask7 (x : Nat) : x &&& 7 = x % 8 := by
  have h := Nat.and_pow_two_sub_one_eq_mod x 3
  norm_num at h
  exact h

theorem and_mask15 (x : Nat) : x &&& 15 = x % 16 := by
  have h := Nat.and_pow_two_sub_one_eq_mod x 4
  norm_num at h
  exact h

theorem and_mask63 (x : Nat) : x &&& 63 = x % 64 := by
  have h := Nat.and_pow_two_sub_one_eq_mod x 6
  norm_num at h
  exact h

theorem or_add_16 {c d : Nat} (hc : c % 16 = 0) (hd : d < 16) :
    c ||| d = c + d := by
  have h := Nat.mul_add_lt_is_or (i := 4) (b := d) (by omega) (c / 16)
  have hcd : 2 ^ 4 * (c / 16) = c := by norm_num; omega
  rw [hcd] at h
  omega

theorem or_add_2048 {c d : Nat} (hc : c % 2048 = 0) (hd : d < 2048) :
    c ||| d = c + d := by
  have h := Nat.mul_add_lt_is_or (i := 11) (b := d) (by omega) (c / 2048)
  have hcd : 2 ^ 11 * (c / 2048) = c := by norm_num; omega
  rw [hcd] at h
  omega

theorem or_add_32768 {c d : Nat} (hc : c % 32768 = 0) (hd : d < 32768) :
    c ||| d = c + d := by
  have h := Nat.mul_add_lt_is_or (i := 15) (b := d) (by omega) (c / 32768)
  have hcd : 2 ^ 15 * (c / 32768) = c := by norm_num; omega
  rw [hcd] at h
  omega

theorem or_add_49152 {d : Nat} (hd : d < 16384) :
    d ||| 49152 = 49152 + d := by
  have h := Nat.mul_add_lt_is_or (i := 14) (b := d) (by omega) 3
  have h3 : 2 ^ 14 * 3 = 49152 := by norm_num
  rw [h3] at h
  rw [Nat.lor_comm]
  omega

/-! ### C2: header flag-word encoding -/

theorem headerBits_sum (h : Header) :
    headerBits h = (if h.resp then 32768 else 0) + (h.opcode % 8) * 2048 +
      (h.flags &&& 0x7F0) + (muRCodeInto h.rcode % 16) := by
  unfold headerBits
  have hop : (h.opcode &&& 7) <<< 11 = (h.opcode % 8) * 2048 := by
    rw [and_mask7, Nat.shiftLeft_eq]
  have hrc : muRCodeInto h.rcode &&& 15 = muRCodeInto h.rcode % 16 := and_mask15 _
  rw [hop, hrc]
  set A := (if h.resp then 32768 else 0 : Nat) with hA
  set C := h.flags &&& 0x7F0 with hC
  set D := muRCodeInto h.rcode % 16 with hD
  set B := (h.opcode % 8) * 2048 with hB
  have hC16 : C % 16 = 0 := by
    rw [← and_mask15, hC, Nat.and_assoc]
    have h15 : (2032 &&& 15 : Nat) = 0 := by decide
    rw [h15, Nat.and_zero]
  have hCle : C ≤ 0x7F0 := by rw [hC, Nat.and_comm]; exact Nat.and_le_left
  have hDlt : D < 16 := by rw [hD]; exact Nat.mod_lt _ (by norm_num)
  have hBle : B ≤ 7 * 2048 := by
    rw [hB]
    have : h.opcode % 8 ≤ 7 := by omega
    exact Nat.mul_le_mul_right _ this
  have hB2048 : B % 2048 = 0 := by rw [hB]; omega
  have hA32768 : A % 32768 = 0 := by
    rw [hA]
    by_cases hr : h.resp <;> simp [hr]
  have hAB : A ||| B = A + B := or_add_32768 hA32768 (by omega)
  have hCD : C ||| D = C + D := or_add_16 hC16 hDlt
  rw [Nat.or_assoc, hCD, hAB]
  have hABmod : (A + B) % 2048 = 0 := by
    have : A % 2048 = 0 := by
      rw [hA]; by_cases hr : h.resp <;> simp [hr]
    omega
  have := or_add_2048 hABmod (d := C + D) (by omega)
  omega

/-- C2 (corrected): `write_header` emits the 2-byte big-endian id, then a
flag word whose bits are `resp·2^15 + (opcode mod 8)·2^11 +
(flags & 0x7F0) + (rcode mod 16)` — the opcode contributes only its low
THREE bits (bit 14 is always clear), not the four bits the spec claims —
then four zero 16-bit count fields. -/
theorem c2_header_word_amended (s : BState) (h : Header) :
    (writeHeader s h).out = s.out ++ toBE16 h.id ++ toBE16 (headerBits h) ++
      [0, 0, 0, 0, 0, 0, 0, 0] ∧
    headerBits h = (if h.resp then 32768 else 0) + (h.opcode % 8) * 2048 +
      (h.flags &&& 0x7F0) + (muRCodeInto h.rcode % 16) := by
  constructor
  · show s.out ++ _ = _
    simp [toBE16]
  · exact headerBits_sum h

/-- C2 counterexample: for opcode 8 the claimed word (low 4 opcode bits at
positions 14..11) is 0x4000, but `write_header` emits 0 — the `& 0b111`
in the source keeps only 3 bits. -/
theorem c2_counterexample :
    headerBitsSpec ⟨0, false, 8, .known .Success, 0⟩ = 16384 ∧
      (writeHeader bnew ⟨0, false, 8, .known .Success, 0⟩).out =
        [0, 0, 0, 0, 0, 0, 0, 0, 0, 0, 0, 0] ∧
      (writeHeader bnew ⟨0, false, 8, .known .Success, 0⟩).out ≠
        toBE16 0 ++ toBE16 (headerBitsSpec ⟨0, false, 8, .known .Success, 0⟩) ++
          [0, 0, 0, 0, 0, 0, 0, 0] := by
  refine ⟨by decide, by decide, by decide⟩

/-! ### C3: pointer-chase limit -/

theorem resolveSegsCnt_bound : ∀ (buf : List Nat) (off c : Nat), c ≤ 11 →
    ∀ r n, resolveSegsCnt buf off c = .ok (r, n) → n + c ≤ 11 := by
  intro buf off c
  induction off, c using resolveSegsCnt.induct buf with
  | case1 off c e he =>
    intro _ r n h; rw [resolveSegsCnt, he] at h; exact absurd h (by simp)
  | case2 off c b hb hptr hc =>
    intro _ r n h; rw [resolveSegsCnt, hb] at h; simp [hptr, hc] at h
  | case3 off c b hb hptr hc e he =>
    intro _ r n h; rw [resolveSegsCnt, hb] at h; simp [hptr, hc, he] at h
  | case4 off c b hb hptr hc o ho e he ih =>
    intro _ r n h; rw [resolveSegsCnt, hb] at h; simp [hptr, hc, ho, he] at h
  | case5 off c b hb hptr hc o ho r0 n0 hrec ih =>
    intro _ r n h
    rw [resolveSegsCnt, hb] at h
    simp [hptr, hc, ho, hrec] at h
    have := ih (by omega) r0 n0 hrec
    omega
  | case6 off c h0 h1 h2 =>
    intro hc11 r n h; rw [resolveSegsCnt, h0] at h; simp at h; omega
  | case7 off c b hb h1 h2 h3 hlen =>
    intro _ r n h; rw [resolveSegsCnt, hb] at h; simp [h1, h2, h3, hlen] at h
  | case8 off c b hb h1 h2 h3 hlen e he =>
    intro _ r n h; rw [resolveSegsCnt, hb] at h; simp [h1, h2, h3, hlen, he] at h
  | case9 off c b hb h1 h2 h3 hlen rest n0 hrec ih =>
    intro hc11 r n h
    rw [resolveSegsCnt, hb] at h
    simp [h1, h2, h3, hlen, hrec] at h
    have := ih hc11 rest n0 hrec
    omega
  | case10 off c b hb h1 h2 =>
    intro _ r n h; rw [resolveSegsCnt, hb] at h; simp [h1, h2] at h

theorem resolveSegs_eq_cnt : ∀ (buf : List Nat) (off c : Nat),
    resolveSegs buf off c = (resolveSegsCnt buf off c).map (fun p => p.1) := by
  intro buf off c
  induction off, c using resolveSegsCnt.induct buf with
  | case1 off c e he => rw [resolveSegs, resolveSegsCnt, he]; simp [Except.map]
  | case2 off c b hb hptr hc =>
    rw [resolveSegs, resolveSegsCnt, hb]; simp [Except.map, hptr, hc]
  | case3 off c b hb hptr hc e he =>
    rw [resolveSegs, resolveSegsCnt, hb]; simp [Except.map, hptr, hc, he]
  | case4 off c b hb hptr hc o ho e he ih =>
    rw [resolveSegs, resolveSegsCnt, hb]; simp [Except.map, hptr, hc, ho, he, ih]
  | case5 off c b hb hptr hc o ho r0 n0 hrec ih =>
    rw [resolveSegs, resolveSegsCnt, hb]; simp [Except.map, hptr, hc, ho, hrec, ih]
  | case6 off c h0 h1 h2 =>
    rw [resolveSegs, resolveSegsCnt, h0]; simp [Except.map]
  | case7 off c b hb h1 h2 h3 hlen =>
    rw [resolveSegs, resolveSegsCnt, hb]; simp [Except.map, h1, h2, h3, hlen]
  | case8 off c b hb h1 h2 h3 hlen e he ih =>
    rw [resolveSegs, resolveSegsCnt, hb]; simp [Except.map, h1, h2, h3, hlen, he, ih]
  | case9 off c b hb h1 h2 h3 hlen rest n0 hrec ih =>
    rw [resolveSegs, resolveSegsCnt, hb]; simp [Except.map, h1, h2, h3, hlen, hrec, ih]
  | case10 off c b hb h1 h2 =>
    rw [resolveSegs, resolveSegsCnt, hb]; simp [Except.map, h1, h2]

/-- C3 (corrected): a successful `segments` resolution performs at most
ELEVEN pointer dereferences (the `> 10` check runs before the increment),
not ten; and the spec's self-pointing cycle buffer terminates with
`TooManyPointers`. -/
theorem c3_pointer_limit_amended :
    (∀ (buf : List Nat) (off : Nat) (r : List (List Nat)) (n : Nat),
      resolveSegsCnt buf off 0 = .ok (r, n) →
      resolveSegs buf off 0 = .ok r ∧ n ≤ 11) ∧
    resolveSegs cycleBuf 12 0 = .error .tooManyPointers := by
  constructor
  · intro buf off r n h
    constructor
    · rw [resolveSegs_eq_cnt, h]; rfl
    · have := resolveSegsCnt_bound buf off 0 (by omega) r n h
      omega
  · exact resolveSegsF_sound 50 _ _ _ _ (by decide)

/-- C3 counterexample: a buffer whose name resolution succeeds after
exactly 11 pointer dereferences, contradicting the claimed bound of 10. -/
theorem c3_counterexample :
    resolveSegsCnt elevenPtrBuf 0 0 = .ok ([], 11) ∧
      resolveSegs elevenPtrBuf 0 0 = .ok [] ∧ 10 < 11 :=
  ⟨resolveSegsCntF_sound 50 _ _ _ _ (by decide),
   resolveSegsF_sound 50 _ _ _ _ (by decide), by omega⟩

theorem c3_witness :
    resolveSegs elevenPtrBuf 0 0 = .ok [] ∧ (11 : Nat) ≤ 11 :=
  c3_pointer_limit_amended.1 elevenPtrBuf 0 [] 11
    (resolveSegsCntF_sound 50 _ _ _ _ (by decide))

/-! ### C4: packet construction size check -/

/-- C4 (corrected): `Packet::new` succeeds exactly when the scan completes
with a final offset at LEAST the buffer length; `PacketSizeMismatch` is
raised only when the buffer holds more bytes than the scan consumed (a
scan that runs past the end without a failed read is accepted). -/
theorem c4_size_check_amended :
    (∀ buf : List Nat, exOk (packetNew buf) = true ↔
      ∃ s off, collectSections buf = .ok (s, off) ∧ buf.length ≤ off) ∧
    (∀ (buf : List Nat) (s : Sections) (off : Nat),
      collectSections buf = .ok (s, off) → off < buf.length →
      packetNew buf = .error .packetSizeMismatch) := by
  constructor
  · intro buf
    constructor
    · intro h
      cases hc : collectSections buf with
      | error e => simp [packetNew, hc, exOk] at h
      | ok p =>
        obtain ⟨s, off⟩ := p
        by_cases hlen : buf.length > off
        · simp [packetNew, hc, hlen, exOk] at h
        · exact ⟨s, off, rfl, by omega⟩
    · rintro ⟨s, off, hc, hle⟩
      unfold packetNew
      rw [hc]
      dsimp only
      rw [if_neg (by omega)]
      simp [exOk]
  · intro buf s off hc hlt
    unfold packetNew
    rw [hc]
    dsimp only
    rw [if_pos (by omega)]

/-- C4 counterexample: a 13-byte buffer whose scan completes at offset 17
(4 bytes past the end); the claim demands `PacketSizeMismatch`, but
`Packet::new` accepts it. -/
theorem c4_counterexample :
    collectSections overrunBuf = .ok (⟨1,12,0,17,0,17,0,17⟩, 17) ∧
      overrunBuf.length = 13 ∧
      packetNew overrunBuf = .ok ⟨1,12,0,17,0,17,0,17⟩ := by
  have hs : skipName [0,0,0,0,0,1,0,0,0,0,0,0,0] 12 = .ok 13 :=
    skipNameF_sound 50 _ _ _ (by decide)
  have hc : collectSections overrunBuf = .ok (⟨1,12,0,17,0,17,0,17⟩, 17) := by
    simp [collectSections, scanQuestions, scanResources, skipQuestion,
      overrunBuf, hs, load2, loadBytes, be16]
  refine ⟨hc, by decide, ?_⟩
  unfold packetNew
  rw [hc]
  dsimp only
  rw [if_neg (by decide)]

theorem c4_witness :
    (exOk (packetNew overrunBuf) = true) ∧
      packetNew cycleBuf = .error .packetSizeMismatch := by
  constructor
  · have hs : skipName [0,0,0,0,0,1,0,0,0,0,0,0,0] 12 = .ok 13 :=
      skipNameF_sound 50 _ _ _ (by decide)
    have h : collectSections overrunBuf = .ok (⟨1,12,0,17,0,17,0,17⟩, 17) := by
      simp [collectSections, scanQuestions, scanResources, skipQuestion,
        overrunBuf, hs, load2, loadBytes, be16]
    exact (c4_size_check_amended.1 overrunBuf).2 ⟨_, 17, h, by decide⟩
  · have h : collectSections cycleBuf = .ok (⟨0,12,0,12,0,12,0,12⟩, 12) := by
      simp [collectSections, scanQuestions, scanResources,
        load2, loadBytes, be16, cycleBuf]
    exact c4_size_check_amended.2 cycleBuf _ 12 h (by decide)

/-! ### C8: non-canonical name rejection -/

/-- C8 (confirmed): a question name that is not `"."` and lacks the
trailing dot makes `write_question` fail with `NonCanonicalName` before
any byte is written: the resulting builder state (bytes, dictionary,
counters) is exactly the input state. -/
theorem c8_noncanonical (s : BState) (q : Question)
    (h1 : q.name ≠ [46]) (h2 : q.name.getLast? ≠ some 46) :
    writeQuestion s q = .fail .nonCanonicalName s := by
  unfold writeQuestion packQuestion packName
  simp [h1, h2]

theorem c8_witness :
    writeQuestion bnew ⟨exName, .known .A, .known .INET⟩ =
      .fail .nonCanonicalName bnew :=
  c8_noncanonical bnew ⟨exName, .known .A, .known .INET⟩ (by decide) (by decide)

/-! ### C9: name length limit -/

theorem packSegs_fail_size : ∀ (segs : List (List Nat)) (s : BState) (e : Err)
    (s2 : BState), packSegs s segs = .fail e s2 →
    ∃ k, e = .invalidNameSegmentSize k := by
  intro segs
  induction segs with
  | nil => intro s e s2 h; simp [packSegs] at h
  | cons seg rest ih =>
    intro s e s2 h
    unfold packSegs at h
    by_cases hsz : seg.length = 0 ∨ 64 ≤ seg.length
    · rw [if_pos hsz] at h
      simp only [BRes.fail.injEq] at h
      exact ⟨seg.length, h.1.symm⟩
    · rw [if_neg hsz] at h
      cases hd : dictGet s.dict (joinSegs (seg :: rest)) with
      | some p => rw [hd] at h; simp at h
      | none =>
        rw [hd] at h
        exact ih _ _ _ h

theorem packName_fail_not_tooLong : ∀ (s : BState) (n : List Nat) (e : Err)
    (s2 : BState), packName s n = .fail e s2 → e ≠ .nameTooLong := by
  intro s n e s2 h
  unfold packName at h
  by_cases h1 : n = [46]
  · simp [h1] at h
  · rw [if_neg h1] at h
    by_cases h2 : n.getLast? = some 46
    · rw [if_neg (by simp [h2])] at h
      obtain ⟨k, hk⟩ := packSegs_fail_size _ _ _ _ h
      simp [hk]
    · rw [if_pos (by simp [h2])] at h
      simp only [BRes.fail.injEq] at h
      simp [← h.1]

theorem packSegs_ok : ∀ (segs : List (List Nat)) (s : BState),
    (∀ seg ∈ segs, 1 ≤ seg.length ∧ seg.length ≤ 63) →
    (packSegs s segs).isOk = true := by
  intro segs
  induction segs with
  | nil => intro s _; simp [packSegs, BRes.isOk]
  | cons seg rest ih =>
    intro s hleg
    have hs := hleg seg (by simp)
    have hsz : ¬ (seg.length = 0 ∨ 64 ≤ seg.length) := by omega
    unfold packSegs
    rw [if_neg hsz]
    cases hd : dictGet s.dict (joinSegs (seg :: rest)) with
    | some p => simp [BRes.isOk]
    | none =>
      exact ih _ (fun x hx => hleg x (by simp [hx]))

theorem packName_ok (s : BState) (n : List Nat) (h2 : n.getLast? = some 46)
    (hleg : ∀ seg ∈ dotSplit n, 1 ≤ seg.length ∧ seg.length ≤ 63) :
    (packName s n).isOk = true := by
  unfold packName
  by_cases h1 : n = [46]
  · simp [h1, BRes.isOk]
  · rw [if_neg h1, if_neg (by simp [h2])]
    exact packSegs_ok _ _ hleg

/-- C9 (corrected): the builder enforces NO total name length limit:
`pack_name` never returns `NameTooLong` for any input, and every
canonical name with labels of 1..63 bytes encodes successfully no matter
how long its wire form is (§9 of the spec notes the limit is declared but
never enforced). -/
theorem c9_no_length_limit :
    (∀ (s : BState) (n : List Nat) (e : Err) (s2 : BState),
      packName s n = .fail e s2 → e ≠ .nameTooLong) ∧
    (∀ (s : BState) (n : List Nat), n.getLast? = some 46 →
      (∀ seg ∈ dotSplit n, 1 ≤ seg.length ∧ seg.length ≤ 63) →
      (packName s n).isOk = true) :=
  ⟨packName_fail_not_tooLong, fun s n h2 hleg => packName_ok s n h2 hleg⟩

set_option maxRecDepth 8192 in
/-- C9 counterexample: a canonical name whose encoded wire form is 257
bytes (over the claimed 255-byte limit) packs successfully instead of
failing with `NameTooLong`. -/
theorem c9_counterexample :
    longName.length + 1 = 257 ∧ longName.getLast? = some 46 ∧
      (∀ seg ∈ dotSplit longName, 1 ≤ seg.length ∧ seg.length ≤ 63) ∧
      (packName (writeHeader bnew hdr0) longName).isOk = true :=
  ⟨by decide, by decide, by decide, by decide⟩

set_option maxRecDepth 8192 in
theorem c9_witness :
    longName.getLast? = some 46 ∧
      (packName (writeHeader bnew hdr0) longName).isOk = true :=
  ⟨by decide, c9_no_length_limit.2 (writeHeader bnew hdr0) longName (by decide)
    (by decide)⟩

/-! ### C10: parse/skip offset agreement -/

theorem parseQuestion_skip {buf : List Nat} {off : Nat} {q : PQuestion}
    {next : Nat} (h : parseQuestion buf off = .ok (q, next)) :
    skipQuestion buf off = .ok next := by
  unfold parseQuestion at h
  unfold skipQuestion
  split at h
  · exact absurd h (by simp)
  · split at h
    · exact absurd h (by simp)
    · split at h
      · exact absurd h (by simp)
      · simp only [Except.ok.injEq, Prod.mk.injEq] at h
        simp [h.2]

theorem parseResource_skip {buf : List Nat} {off : Nat} {r : PResource}
    {next : Nat} (h : parseResource buf off = .ok (r, next)) :
    skipResource buf off = .ok next := by
  unfold parseResource at h
  unfold skipResource
  split at h
  · exact absurd h (by simp)
  · split at h
    · exact absurd h (by simp)
    · split at h
      · exact absurd h (by simp)
      · split at h
        · exact absurd h (by simp)
        · split at h
          · exact absurd h (by simp)
          · split at h
            · exact absurd h (by simp)
            · simp only [Except.ok.injEq, Prod.mk.injEq] at h
              simp [h.2]

/-- C10 (confirmed): whenever `parse_question` / `parse_resource`
succeeds with a next offset, the corresponding skip function succeeds at
the same offset, so cursor advancement and iterator decoding agree on
record boundaries. -/
theorem c10_parse_skip_agree :
    (∀ (buf : List Nat) (off : Nat) (q : PQuestion) (next : Nat),
      parseQuestion buf off = .ok (q, next) →
      skipQuestion buf off = .ok next) ∧
    (∀ (buf : List Nat) (off : Nat) (r : PResource) (next : Nat),
      parseResource buf off = .ok (r, next) →
      skipResource buf off = .ok next) :=
  ⟨fun _ _ _ _ h => parseQuestion_skip h,
   fun _ _ _ _ h => parseResource_skip h⟩

theorem c10_witness :
    parseQuestion overlapBuf 12 = .ok (⟨12, .known .A, .known .INET⟩, 19) ∧
      skipQuestion overlapBuf 12 = .ok 19 := by
  have hs : skipName [0,0,0,0,0,2,0,0,0,0,0,0, 1,97,0, 0,1, 0,1, 192,15, 0,1, 0,1]
      12 = .ok 15 := skipNameF_sound 50 _ _ _ (by decide)
  have hp : parseQuestion overlapBuf 12 =
      .ok (⟨12, .known .A, .known .INET⟩, 19) := by
    simp [parseQuestion, overlapBuf, hs, load2, loadBytes, be16,
      muTypeFrom, muClassFrom, rtypeFromPrim, rclassFromPrim]
  exact ⟨hp, c10_parse_skip_agree.1 overlapBuf 12 _ 19 hp⟩

/-! ### Builder state evolution lemmas -/

theorem storeAt_length {l : List Nat} {pos : Nat} {bs : List Nat}
    (h : pos + bs.length ≤ l.length) : (storeAt l pos bs).length = l.length := by
  unfold storeAt
  simp
  omega

theorem storeAt_append {a b : List Nat} {k : Nat} {bs : List Nat} :
    storeAt (a ++ b) (a.length + k) bs = a ++ storeAt b k bs := by
  unfold storeAt
  rw [List.take_append, show a.length + k + bs.length = a.length + (k + bs.length)
    by omega, List.drop_append]
  simp [List.append_assoc]

theorem storeAt_read {l : List Nat} {pos : Nat} {bs : List Nat}
    (h : pos + bs.length ≤ l.length) :
    ((storeAt l pos bs).drop pos).take bs.length = bs := by
  unfold storeAt
  rw [List.append_assoc, List.drop_append_of_le_length (by simp; omega)]
  have hnil : (l.take pos).drop pos = [] := by
    apply List.drop_eq_nil_of_le
    simp
  rw [hnil, List.nil_append, List.take_left]

theorem outGrows_refl (s : BState) : outGrows s s := ⟨[], by simp⟩

theorem outGrows_trans {s1 s2 s3 : BState} (h1 : outGrows s1 s2)
    (h2 : outGrows s2 s3) : outGrows s1 s3 := by
  obtain ⟨t1, h1⟩ := h1
  obtain ⟨t2, h2⟩ := h2
  exact ⟨t1 ++ t2, by simp [h2, h1]⟩

theorem outGrows_bwrite (s : BState) (bs : List Nat) :
    outGrows s (bwrite s bs) := ⟨bs, rfl⟩

theorem cntSame_refl (s : BState) : cntSame s s := ⟨rfl, rfl, rfl, rfl⟩

theorem cntSame_trans {s1 s2 s3 : BState} (h1 : cntSame s1 s2)
    (h2 : cntSame s2 s3) : cntSame s1 s3 := by
  obtain ⟨a1, a2, a3, a4⟩ := h1
  obtain ⟨b1, b2, b3, b4⟩ := h2
  exact ⟨by omega, by omega, by omega, by omega⟩

theorem packSegs_evo : ∀ (segs : List (List Nat)) (s : BState) (s2 : BState),
    packSegs s segs = .ok () s2 → outGrows s s2 ∧ cntSame s s2 := by
  intro segs
  induction segs with
  | nil =>
    intro s s2 h
    simp only [packSegs, BRes.ok.injEq] at h
    rw [← h.2]
    exact ⟨outGrows_bwrite s [0], cntSame_refl _⟩
  | cons seg rest ih =>
    intro s s2 h
    unfold packSegs at h
    by_cases hsz : seg.length = 0 ∨ 64 ≤ seg.length
    · rw [if_pos hsz] at h; exact absurd h (by simp)
    · rw [if_neg hsz] at h
      cases hd : dictGet s.dict (joinSegs (seg :: rest)) with
      | some p =>
        rw [hd] at h
        simp only [BRes.ok.injEq] at h
        rw [← h.2]
        exact ⟨outGrows_bwrite _ _, cntSame_refl _⟩
      | none =>
        rw [hd] at h
        have := ih _ _ h
        refine ⟨outGrows_trans ?_ this.1, ?_⟩
        · by_cases hin : s.out.length ≤ 0x3FFF <;>
            simp [hin, bwrite, outGrows, List.append_assoc]
        · refine cntSame_trans ?_ this.2
          by_cases hin : s.out.length ≤ 0x3FFF <;>
            simp [hin, bwrite, cntSame]

theorem packName_evo {s s2 : BState} {n : List Nat}
    (h : packName s n = .ok () s2) : outGrows s s2 ∧ cntSame s s2 := by
  unfold packName at h
  by_cases h1 : n = [46]
  · rw [if_pos h1] at h
    simp only [BRes.ok.injEq] at h
    rw [← h.2]
    exact ⟨outGrows_bwrite _ _, cntSame_refl _⟩
  · rw [if_neg h1] at h
    by_cases h2 : n.getLast? ≠ some 46
    · rw [if_pos h2] at h; exact absurd h (by simp)
    · rw [if_neg h2] at h
      exact packSegs_evo _ _ _ h

theorem packQuestion_evo {s s2 : BState} {q : Question}
    (h : packQuestion s q = .ok () s2) : outGrows s s2 ∧ cntSame s s2 := by
  unfold packQuestion at h
  cases hn : packName s q.name with
  | fail e s3 => rw [hn] at h; exact absurd h (by simp)
  | ok u s3 =>
    rw [hn] at h
    simp only [BRes.ok.injEq] at h
    rw [← h.2]
    obtain ⟨u⟩ := u
    have := packName_evo hn
    exact ⟨outGrows_trans this.1 (outGrows_trans (outGrows_bwrite _ _)
      (outGrows_bwrite _ _)), this.2⟩

theorem packTxt_evo : ∀ (ts : List (List Nat)) (s s2 : BState),
    packTxt s ts = .ok () s2 → outGrows s s2 ∧ cntSame s s2 := by
  intro ts
  induction ts with
  | nil =>
    intro s s2 h
    simp only [packTxt, BRes.ok.injEq] at h
    rw [← h.2]
    exact ⟨outGrows_refl _, cntSame_refl _⟩
  | cons t rest ih =>
    intro s s2 h
    unfold packTxt at h
    by_cases hl : 255 < t.length
    · rw [if_pos hl] at h; exact absurd h (by simp)
    · rw [if_neg hl] at h
      have := ih _ _ h
      exact ⟨outGrows_trans (outGrows_trans (outGrows_bwrite _ _)
        (outGrows_bwrite _ _)) this.1, this.2⟩

theorem packRData_evo {s s2 : BState} {d : RData}
    (h : packRData s d = .ok () s2) : outGrows s s2 ∧ cntSame s s2 := by
  cases d with
  | cname n => exact packName_evo h
  | ns n => exact packName_evo h
  | ptr n => exact packName_evo h
  | mx preference m =>
    have := packName_evo (s := bwrite s (toBE16 preference)) h
    exact ⟨outGrows_trans (outGrows_bwrite _ _) this.1, this.2⟩
  | soa ns mbox serial refresh retry expire minTtl =>
    unfold packRData at h
    dsimp only at h
    cases h1 : packName s ns with
    | fail e s3 => rw [h1] at h; exact absurd h (by simp)
    | ok u s3 =>
      rw [h1] at h
      dsimp only at h
      cases h2 : packName s3 mbox with
      | fail e s4 => rw [h2] at h; exact absurd h (by simp)
      | ok u2 s4 =>
        rw [h2] at h
        simp only [BRes.ok.injEq] at h
        rw [← h.2]
        have e1 := packName_evo h1
        have e2 := packName_evo h2
        exact ⟨outGrows_trans e1.1 (outGrows_trans e2.1 (outGrows_bwrite _ _)),
          cntSame_trans e1.2 e2.2⟩
  | txt ts => exact packTxt_evo ts s s2 h
  | srv priority weight port target =>
    have := packName_evo
      (s := bwrite s (toBE16 priority ++ toBE16 weight ++ toBE16 port)) h
    exact ⟨outGrows_trans (outGrows_bwrite _ _) this.1, this.2⟩
  | a octets =>
    simp only [packRData, BRes.ok.injEq] at h
    rw [← h.2]
    exact ⟨outGrows_bwrite _ _, cntSame_refl _⟩
  | aaaa octets =>
    simp only [packRData, BRes.ok.injEq] at h
    rw [← h.2]
    exact ⟨outGrows_bwrite _ _, cntSame_refl _⟩
  | unknown typ data =>
    simp only [packRData, BRes.ok.injEq] at h
    rw [← h.2]
    exact ⟨outGrows_bwrite _ _, cntSame_refl _⟩

theorem outGrows_bwriteAt {s s5 : BState} {a t2 : List Nat} {bs : List Nat}
    (h5 : s5.out = s.out ++ a ++ t2) {pos : Nat}
    (hpos : pos = s.out.length + a.length) :
    outGrows s (bwriteAt s5 pos bs) := by
  refine ⟨storeAt (a ++ t2) a.length bs, ?_⟩
  show storeAt s5.out pos bs = _
  rw [h5, List.append_assoc, hpos, storeAt_append]

theorem packResource_evo {s s2 : BState} {r : Resource}
    (h : packResource s r = .ok () s2) : outGrows s s2 ∧ cntSame s s2 := by
  unfold packResource at h
  cases h1 : packName s r.name with
  | fail e s3 => rw [h1] at h; exact absurd h (by simp)
  | ok u s3 =>
    rw [h1] at h
    dsimp only at h
    cases h2 : packRData (bwrite (bwrite s3 (toBE16 (muTypeInto (rdataTyp r.data)) ++
        toBE16 (muClassInto r.cls) ++ toBE32 r.ttl)) (toBE16 0)) r.data with
    | fail e s5 => rw [h2] at h; exact absurd h (by simp)
    | ok u2 s5 =>
      rw [h2] at h
      simp only [BRes.ok.injEq] at h
      rw [← h.2]
      have e1 := packName_evo h1
      have e2 := packRData_evo h2
      obtain ⟨t2, ht2⟩ := e2.1
      have h5 : s5.out = s3.out ++ (toBE16 (muTypeInto (rdataTyp r.data)) ++
          toBE16 (muClassInto r.cls) ++ toBE32 r.ttl) ++ (toBE16 0 ++ t2) := by
        rw [ht2]
        simp [bwrite, List.append_assoc]
      constructor
      · refine outGrows_trans e1.1 (outGrows_bwriteAt h5 ?_)
        simp [bwrite]
      · have := e2.2
        simp only [bwrite, cntSame] at this
        exact cntSame_trans e1.2 this

theorem writeQuestionList_evo : ∀ (qs : List Question) (s s2 : BState),
    writeQuestionList s qs = .ok () s2 →
    outGrows s s2 ∧ s2.questions = s.questions + qs.length ∧
      s2.answers = s.answers ∧ s2.authorities = s.authorities ∧
      s2.additionals = s.additionals := by
  intro qs
  induction qs with
  | nil =>
    intro s s2 h
    simp only [writeQuestionList, BRes.ok.injEq] at h
    rw [← h.2]
    exact ⟨outGrows_refl _, by simp, rfl, rfl, rfl⟩
  | cons q rest ih =>
    intro s s2 h
    unfold writeQuestionList writeQuestion at h
    cases h1 : packQuestion s q with
    | fail e s3 => rw [h1] at h; exact absurd h (by simp)
    | ok u s3 =>
      rw [h1] at h
      have e1 := packQuestion_evo h1
      have e2 := ih _ _ h
      obtain ⟨c1, c2, c3, c4⟩ := e1.2
      obtain ⟨⟨t, ht⟩, g2, g3, g4, g5⟩ := e2
      dsimp only at ht g2 g3 g4 g5
      refine ⟨outGrows_trans e1.1 ⟨t, ht⟩, ?_, by omega, by omega, by omega⟩
      simp only [List.length_cons]
      omega

theorem writeAnswerList_evo : ∀ (rs : List Resource) (s s2 : BState),
    writeAnswerList s rs = .ok () s2 →
    outGrows s s2 ∧ s2.answers = s.answers + rs.length ∧
      s2.questions = s.questions ∧ s2.authorities = s.authorities ∧
      s2.additionals = s.additionals := by
  intro rs
  induction rs with
  | nil =>
    intro s s2 h
    simp only [writeAnswerList, BRes.ok.injEq] at h
    rw [← h.2]
    exact ⟨outGrows_refl _, by simp, rfl, rfl, rfl⟩
  | cons r rest ih =>
    intro s s2 h
    unfold writeAnswerList writeAnswer at h
    cases h1 : packResource s r with
    | fail e s3 => rw [h1] at h; exact absurd h (by simp)
    | ok u s3 =>
      rw [h1] at h
      have e1 := packResource_evo h1
      have e2 := ih _ _ h
      obtain ⟨c1, c2, c3, c4⟩ := e1.2
      obtain ⟨⟨t, ht⟩, g2, g3, g4, g5⟩ := e2
      dsimp only at ht g2 g3 g4 g5
      refine ⟨outGrows_trans e1.1 ⟨t, ht⟩, ?_, by omega, by omega, by omega⟩
      simp only [List.length_cons]
      omega

theorem writeAuthorityList_evo : ∀ (rs : List Resource) (s s2 : BState),
    writeAuthorityList s rs = .ok () s2 →
    outGrows s s2 ∧ s2.authorities = s.authorities + rs.length ∧
      s2.questions = s.questions ∧ s2.answers = s.answers ∧
      s2.additionals = s.additionals := by
  intro rs
  induction rs with
  | nil =>
    intro s s2 h
    simp only [writeAuthorityList, BRes.ok.injEq] at h
    rw [← h.2]
    exact ⟨outGrows_refl _, by simp, rfl, rfl, rfl⟩
  | cons r rest ih =>
    intro s s2 h
    unfold writeAuthorityList writeAuthority at h
    cases h1 : packResource s r with
    | fail e s3 => rw [h1] at h; exact absurd h (by simp)
    | ok u s3 =>
      rw [h1] at h
      have e1 := packResource_evo h1
      have e2 := ih _ _ h
      obtain ⟨c1, c2, c3, c4⟩ := e1.2
      obtain ⟨⟨t, ht⟩, g2, g3, g4, g5⟩ := e2
      dsimp only at ht g2 g3 g4 g5
      refine ⟨outGrows_trans e1.1 ⟨t, ht⟩, ?_, by omega, by omega, by omega⟩
      simp only [List.length_cons]
      omega

theorem writeAdditionalList_evo : ∀ (rs : List Resource) (s s2 : BState),
    writeAdditionalList s rs = .ok () s2 →
    outGrows s s2 ∧ s2.additionals = s.additionals + rs.length ∧
      s2.questions = s.questions ∧ s2.answers = s.answers ∧
      s2.authorities = s.authorities := by
  intro rs
  induction rs with
  | nil =>
    intro s s2 h
    simp only [writeAdditionalList, BRes.ok.injEq] at h
    rw [← h.2]
    exact ⟨outGrows_refl _, by simp, rfl, rfl, rfl⟩
  | cons r rest ih =>
    intro s s2 h
    unfold writeAdditionalList writeAdditional at h
    cases h1 : packResource s r with
    | fail e s3 => rw [h1] at h; exact absurd h (by simp)
    | ok u s3 =>
      rw [h1] at h
      have e1 := packResource_evo h1
      have e2 := ih _ _ h
      obtain ⟨c1, c2, c3, c4⟩ := e1.2
      obtain ⟨⟨t, ht⟩, g2, g3, g4, g5⟩ := e2
      dsimp only at ht g2 g3 g4 g5
      refine ⟨outGrows_trans e1.1 ⟨t, ht⟩, ?_, by omega, by omega, by omega⟩
      simp only [List.length_cons]
      omega

/-! ### C6: section-count fidelity -/

theorem outGrows_len {s s2 : BState} (h : outGrows s s2) :
    s.out.length ≤ s2.out.length := by
  obtain ⟨t, ht⟩ := h
  simp [ht]

/-- C6 (confirmed): after each `finish_*` call the corresponding
big-endian count field at header offset 4 / 6 / 8 / 10 equals the number
of `write_question` / `write_answer` / `write_authority` /
`write_additional` calls that succeeded in that phase. -/
theorem c6_section_counts (h : Header) (qs : List Question)
    (ans aus ads : List Resource) (s2 s3 s4 s5 : BState)
    (h1 : writeQuestionList (writeHeader bnew h) qs = .ok () s2)
    (h2 : writeAnswerList (finishQuestions s2) ans = .ok () s3)
    (h3 : writeAuthorityList (finishAnswers s3) aus = .ok () s4)
    (h4 : writeAdditionalList (finishAuthorities s4) ads = .ok () s5)
    (b1 : qs.length < 65536) (b2 : ans.length < 65536)
    (b3 : aus.length < 65536) (b4 : ads.length < 65536) :
    ((finishQuestions s2).out.drop 4).take 2 = toBE16 qs.length ∧
    ((finishAnswers s3).out.drop 6).take 2 = toBE16 ans.length ∧
    ((finishAuthorities s4).out.drop 8).take 2 = toBE16 aus.length ∧
    ((finishAdditionals s5).out.drop 10).take 2 = toBE16 ads.length := by
  have hlen0 : (writeHeader bnew h).out.length = 12 := by
    simp [writeHeader, bwrite, bnew, toBE16]
  have e1 := writeQuestionList_evo qs _ _ h1
  have hq : s2.questions = qs.length := by
    have : (writeHeader bnew h).questions = 0 := rfl
    omega
  have hl2 : 12 ≤ s2.out.length := by
    have := outGrows_len e1.1
    omega
  have hfq : finishQuestions s2 = bwriteAt s2 4 (toBE16 s2.questions) := rfl
  have hfqlen : (finishQuestions s2).out.length = s2.out.length := by
    rw [hfq]
    exact storeAt_length (by first | omega | (simp [toBE16]; omega))
  have r1 : ((finishQuestions s2).out.drop 4).take 2 = toBE16 qs.length := by
    rw [hfq, ← hq]
    show ((storeAt s2.out 4 (toBE16 s2.questions)).drop 4).take
      (toBE16 s2.questions).length = toBE16 s2.questions
    exact storeAt_read (by simp [toBE16]; omega)
  have e2 := writeAnswerList_evo ans _ _ h2
  have ha : s3.answers = ans.length := by
    have hfqa : (finishQuestions s2).answers = s2.answers := rfl
    have hs2a : s2.answers = 0 := by
      have : (writeHeader bnew h).answers = 0 := rfl
      omega
    omega
  have hl3 : 12 ≤ s3.out.length := by
    have := outGrows_len e2.1
    omega
  have hfa : finishAnswers s3 = bwriteAt s3 6 (toBE16 s3.answers) := rfl
  have hfalen : (finishAnswers s3).out.length = s3.out.length := by
    rw [hfa]
    exact storeAt_length (by first | omega | (simp [toBE16]; omega))
  have r2 : ((finishAnswers s3).out.drop 6).take 2 = toBE16 ans.length := by
    rw [hfa, ← ha]
    show ((storeAt s3.out 6 (toBE16 s3.answers)).drop 6).take
      (toBE16 s3.answers).length = toBE16 s3.answers
    exact storeAt_read (by simp [toBE16]; omega)
  have e3 := writeAuthorityList_evo aus _ _ h3
  have hau : s4.authorities = aus.length := by
    have hfaa : (finishAnswers s3).authorities = s3.authorities := rfl
    have hs3a : s3.authorities = 0 := by
      have h0 : (writeHeader bnew h).authorities = 0 := rfl
      have hfq2 : (finishQuestions s2).authorities = s2.authorities := rfl
      omega
    omega
  have hl4 : 12 ≤ s4.out.length := by
    have := outGrows_len e3.1
    omega
  have hfau : finishAuthorities s4 = bwriteAt s4 8 (toBE16 s4.authorities) := rfl
  have hfaulen : (finishAuthorities s4).out.length = s4.out.length := by
    rw [hfau]
    exact storeAt_length (by first | omega | (simp [toBE16]; omega))
  have r3 : ((finishAuthorities s4).out.drop 8).take 2 = toBE16 aus.length := by
    rw [hfau, ← hau]
    show ((storeAt s4.out 8 (toBE16 s4.authorities)).drop 8).take
      (toBE16 s4.authorities).length = toBE16 s4.authorities
    exact storeAt_read (by simp [toBE16]; omega)
  have e4 := writeAdditionalList_evo ads _ _ h4
  have had : s5.additionals = ads.length := by
    have h0 : (writeHeader bnew h).additionals = 0 := rfl
    have k1 : (finishQuestions s2).additionals = s2.additionals := rfl
    have k2 : (finishAnswers s3).additionals = s3.additionals := rfl
    have k3 : (finishAuthorities s4).additionals = s4.additionals := rfl
    omega
  have hl5 : 12 ≤ s5.out.length := by
    have := outGrows_len e4.1
    omega
  have hfad : finishAdditionals s5 = bwriteAt s5 10 (toBE16 s5.additionals) := rfl
  have r4 : ((finishAdditionals s5).out.drop 10).take 2 = toBE16 ads.length := by
    rw [hfad, ← had]
    show ((storeAt s5.out 10 (toBE16 s5.additionals)).drop 10).take
      (toBE16 s5.additionals).length = toBE16 s5.additionals
    exact storeAt_read (by simp [toBE16]; omega)
  exact ⟨r1, r2, r3, r4⟩

theorem c6_witness :
    (∃ s2, writeQuestionList (writeHeader bnew hdr0) [q5a] = .ok () s2 ∧
      ((finishQuestions s2).out.drop 4).take 2 = [0, 1]) := by
  cases hq : writeQuestionList (writeHeader bnew hdr0) [q5a] with
  | fail e s =>
    have hok : (writeQuestionList (writeHeader bnew hdr0) [q5a]).isOk = true := by decide
    rw [hq] at hok
    exact absurd hok (by simp [BRes.isOk])
  | ok u s2 =>
    obtain ⟨u⟩ := u
    refine ⟨s2, rfl, ?_⟩
    have h2 : writeAnswerList (finishQuestions s2) [] = .ok () (finishQuestions s2) := rfl
    have h3 : writeAuthorityList (finishAnswers (finishQuestions s2)) [] =
      .ok () (finishAnswers (finishQuestions s2)) := rfl
    have h4 : writeAdditionalList (finishAuthorities (finishAnswers (finishQuestions s2)))
      [] = .ok () (finishAuthorities (finishAnswers (finishQuestions s2))) := rfl
    have := c6_section_counts hdr0 [q5a] [] [] [] s2 _ _ _ hq h2 h3 h4
      (by decide) (by decide) (by decide) (by decide)
    have hr := this.1
    simpa [toBE16] using hr

/-! ### C5: name compression step -/

/-- C5 (confirmed): one step of `pack_name` on a multi-label name — on a
dictionary hit for the remaining suffix it emits exactly the 16-bit
big-endian value `offset | 0xC000` (bytes `[0xC0 + ptr/256, ptr%256]`)
and stops; on a miss it records the suffix at the current offset only
when that offset fits in 14 bits, then emits the length byte and the
label bytes and continues; consequently, in the two-question build for
`a.b.c.` and `b.c.`, the second name is the 2-byte pointer `C0 0E` into
the first question's name, and it resolves back to `b.c.`. -/
theorem c5_compression_step :
    (∀ (s : BState) (seg : List Nat) (rest : List (List Nat)) (ptr : Nat),
      ¬ (seg.length = 0 ∨ 64 ≤ seg.length) →
      dictGet s.dict (joinSegs (seg :: rest)) = some ptr → ptr ≤ 0x3FFF →
      packSegs s (seg :: rest) =
        .ok () { s with out := s.out ++ [192 + ptr / 256, ptr % 256] }) ∧
    (∀ (s : BState) (seg : List Nat) (rest : List (List Nat)),
      ¬ (seg.length = 0 ∨ 64 ≤ seg.length) →
      dictGet s.dict (joinSegs (seg :: rest)) = none →
      packSegs s (seg :: rest) =
        packSegs { s with
          out := s.out ++ seg.length :: seg,
          dict := if s.out.length ≤ 0x3FFF then
            (joinSegs (seg :: rest), s.out.length) :: s.dict
          else s.dict } rest) ∧
    bresBytes (buildMessage hdr0 [q5a, q5b] [] [] []) = buf5 ∧
    (buildMessage hdr0 [q5a, q5b] [] [] []).isOk = true ∧
    (buf5.drop 23).take 2 = [192, 14] ∧
    nameText buf5 23 = .ok [98, 46, 99, 46] := by
  refine ⟨?_, ?_, by decide, by decide, by decide, ?_⟩
  · intro s seg rest ptr hsz hd hle
    have hor : ptr ||| 0xC000 = 49152 + ptr := or_add_49152 (by omega)
    have hbytes : toBE16 (ptr ||| 0xC000) = [192 + ptr / 256, ptr % 256] := by
      rw [hor]
      unfold toBE16
      have e1 : (49152 + ptr) % 65536 / 256 = 192 + ptr / 256 := by omega
      have e2 : (49152 + ptr) % 256 = ptr % 256 := by omega
      rw [e1, e2]
    unfold packSegs
    rw [if_neg hsz, hd]
    dsimp only
    rw [hbytes]
    rfl
  · intro s seg rest hsz hd
    have hstate : bwrite (bwrite (if s.out.length ≤ 0x3FFF then
        { s with dict := (joinSegs (seg :: rest), s.out.length) :: s.dict }
        else s) [seg.length]) seg =
        { s with out := s.out ++ seg.length :: seg,
                 dict := if s.out.length ≤ 0x3FFF then
                   (joinSegs (seg :: rest), s.out.length) :: s.dict
                 else s.dict } := by
      by_cases hin : s.out.length ≤ 0x3FFF <;> simp [hin, bwrite]
    unfold packSegs
    rw [if_neg hsz, hd]
    dsimp only
    rw [hstate]
    rw [packSegs.eq_def]
  · have hres : resolveSegs buf5 23 0 = .ok [[98], [99]] :=
      resolveSegsF_sound 50 _ _ _ _ (by decide)
    unfold nameText
    rw [hres]
    decide

theorem c5_witness :
    packSegs ⟨List.replicate 23 0, [([98,46,99,46], 14)], 0, 0, 0, 0⟩
        [[98], [99]] =
      .ok () { out := List.replicate 23 0 ++ [192, 14],
               dict := [([98,46,99,46], 14)],
               questions := 0, answers := 0, authorities := 0,
               additionals := 0 } := by
  have := c5_compression_step.1 ⟨List.replicate 23 0, [([98,46,99,46], 14)], 0, 0, 0, 0⟩
    [98] [[99]] 14 (by decide) (by decide) (by decide)
  simpa using this

/-! ### C7: in-place cursor mutation

Byte-agreement machinery: every parse-stack function reads the buffer
only inside a window determined by its result, so two buffers of equal
length that agree outside the mutated field parse identically wherever
the window misses the field. -/


theorem getD_slice_eq {b1 b2 : List Nat} {off n : Nat}
    (hlen : b2.length = b1.length) (hin : off + n ≤ b1.length)
    (hag : ∀ i, off ≤ i → i < off + n → b2.getD i 0 = b1.getD i 0) :
    (b2.drop off).take n = (b1.drop off).take n := by
  apply List.ext_getElem?
  intro i
  rw [List.getElem?_take, List.getElem?_take]
  by_cases hi : i < n
  · simp only [if_pos hi]
    rw [List.getElem?_drop, List.getElem?_drop]
    have hb : off + i < b1.length := by omega
    have hb2 : off + i < b2.length := by omega
    have := hag (off + i) (by omega) (by omega)
    rw [List.getD_eq_getElem?_getD, List.getD_eq_getElem?_getD] at this
    rw [List.getElem?_eq_getElem hb, List.getElem?_eq_getElem hb2] at this
    rw [List.getElem?_eq_getElem hb, List.getElem?_eq_getElem hb2]
    simp at this ⊢
    exact this
  · simp [hi]

theorem loadBytes_agree {b1 b2 : List Nat} {off n : Nat} {lim : Option Nat}
    {r : Except Err (List Nat)} (hlen : b2.length = b1.length)
    (hag : ∀ i, off ≤ i → i < off + n → b2.getD i 0 = b1.getD i 0)
    (h : loadBytes b1 off n lim = r) : loadBytes b2 off n lim = r := by
  unfold loadBytes at h ⊢
  rw [hlen]
  by_cases hb : b1.length < off + n
  · rw [if_pos hb] at h ⊢; exact h
  · rw [if_neg hb] at h ⊢
    have hsl := getD_slice_eq hlen (by omega) hag
    cases lim with
    | none => dsimp only at h ⊢; rw [hsl]; exact h
    | some l =>
      dsimp only at h ⊢
      by_cases hl : off + n > l
      · rw [if_pos hl] at h ⊢; exact h
      · rw [if_neg hl] at h ⊢; rw [hsl]; exact h

theorem load1_agree {b1 b2 : List Nat} {off : Nat} {lim : Option Nat}
    {r : Except Err Nat} (hlen : b2.length = b1.length)
    (hag : ∀ i, off ≤ i → i < off + 1 → b2.getD i 0 = b1.getD i 0)
    (h : load1 b1 off lim = r) : load1 b2 off lim = r := by
  unfold load1 at h ⊢
  cases hb : loadBytes b1 off 1 lim with
  | error e => rw [loadBytes_agree hlen hag hb]; rw [hb] at h; exact h
  | ok bs => rw [loadBytes_agree hlen hag hb]; rw [hb] at h; exact h

theorem load2_agree {b1 b2 : List Nat} {off : Nat} {lim : Option Nat}
    {r : Except Err Nat} (hlen : b2.length = b1.length)
    (hag : ∀ i, off ≤ i → i < off + 2 → b2.getD i 0 = b1.getD i 0)
    (h : load2 b1 off lim = r) : load2 b2 off lim = r := by
  unfold load2 at h ⊢
  cases hb : loadBytes b1 off 2 lim with
  | error e => rw [loadBytes_agree hlen hag hb]; rw [hb] at h; exact h
  | ok bs => rw [loadBytes_agree hlen hag hb]; rw [hb] at h; exact h

theorem load4_agree {b1 b2 : List Nat} {off : Nat} {lim : Option Nat}
    {r : Except Err Nat} (hlen : b2.length = b1.length)
    (hag : ∀ i, off ≤ i → i < off + 4 → b2.getD i 0 = b1.getD i 0)
    (h : load4 b1 off lim = r) : load4 b2 off lim = r := by
  unfold load4 at h ⊢
  cases hb : loadBytes b1 off 4 lim with
  | error e => rw [loadBytes_agree hlen hag hb]; rw [hb] at h; exact h
  | ok bs => rw [loadBytes_agree hlen hag hb]; rw [hb] at h; exact h

theorem skipName_gt : ∀ (buf : List Nat) (off res : Nat),
    skipName buf off = .ok res → off < res := by
  intro buf off res
  induction off using skipName.induct buf with
  | case1 x e he =>
    intro h; rw [skipName, he] at h; exact absurd h (by simp)
  | case2 x b hb h192 =>
    intro h; rw [skipName, hb] at h; dsimp only at h
    rw [if_pos h192] at h; simp at h; omega
  | case3 x h0 hne h192 =>
    intro h; rw [skipName, h0] at h; dsimp only at h
    rw [if_neg hne, if_pos h192] at h; simp at h; omega
  | case4 x b hb hne h192 hb0 ih =>
    intro h; rw [skipName, hb] at h; dsimp only at h
    rw [if_neg hne, if_pos h192, if_neg hb0] at h
    have := ih h; omega
  | case5 x b hb hne hne2 =>
    intro h; rw [skipName, hb] at h; dsimp only at h
    rw [if_neg hne, if_neg hne2] at h; simp at h

theorem skipName_agree {b1 b2 : List Nat} (hlen : b2.length = b1.length) :
    ∀ (off res : Nat), skipName b1 off = .ok res →
    (∀ i, off ≤ i → i < res → b2.getD i 0 = b1.getD i 0) →
    skipName b2 off = .ok res := by
  intro off
  induction off using skipName.induct b1 with
  | case1 x e he =>
    intro res h _; rw [skipName, he] at h; exact absurd h (by simp)
  | case2 x b hb h192 =>
    intro res h hag
    rw [skipName, hb] at h; dsimp only at h
    rw [if_pos h192] at h; simp only [Except.ok.injEq] at h
    have hres : x < res := by omega
    have hb2 : load1 b2 x none = .ok b :=
      load1_agree hlen (fun i h1 h2 => hag i h1 (by omega)) hb
    rw [skipName, hb2]; dsimp only
    rw [if_pos h192, h]
  | case3 x h0 hne h192 =>
    intro res h hag
    rw [skipName, h0] at h; dsimp only at h
    rw [if_neg hne, if_pos h192] at h
    simp only [if_true, reduceIte, Except.ok.injEq] at h
    have hb2 : load1 b2 x none = .ok 0 :=
      load1_agree hlen (fun i h1 h2 => hag i h1 (by omega)) h0
    rw [skipName, hb2]; dsimp only
    rw [if_neg hne, if_pos h192]
    simp [h]
  | case4 x b hb hne h192 hb0 ih =>
    intro res h hag
    rw [skipName, hb] at h; dsimp only at h
    rw [if_neg hne, if_pos h192, if_neg hb0] at h
    have hrgt := skipName_gt b1 (x + 1 + b) res h
    have hb2 : load1 b2 x none = .ok b :=
      load1_agree hlen (fun i h1 h2 => hag i h1 (by omega)) hb
    rw [skipName, hb2]; dsimp only
    rw [if_neg hne, if_pos h192, if_neg hb0]
    exact ih res h (fun i h1 h2 => hag i (by omega) h2)
  | case5 x b hb hne hne2 =>
    intro res h _; rw [skipName, hb] at h; dsimp only at h
    rw [if_neg hne, if_neg hne2] at h; exact absurd h (by simp)

theorem loadBytes_ok_limit {buf : List Nat} {off n l : Nat} {bs : List Nat}
    (h : loadBytes buf off n (some l) = .ok bs) : off + n ≤ l := by
  unfold loadBytes at h
  by_cases hb : buf.length < off + n
  · rw [if_pos hb] at h; exact absurd h (by simp)
  · rw [if_neg hb] at h; dsimp only at h
    by_cases hl : off + n > l
    · rw [if_pos hl] at h; exact absurd h (by simp)
    · omega

theorem load1_ok_limit {buf : List Nat} {off l b : Nat}
    (h : load1 buf off (some l) = .ok b) : off + 1 ≤ l := by
  unfold load1 at h
  cases hb : loadBytes buf off 1 (some l) with
  | error e => rw [hb] at h; exact absurd h (by simp)
  | ok bs => exact loadBytes_ok_limit hb

theorem load2_ok_limit {buf : List Nat} {off l b : Nat}
    (h : load2 buf off (some l) = .ok b) : off + 2 ≤ l := by
  unfold load2 at h
  cases hb : loadBytes buf off 2 (some l) with
  | error e => rw [hb] at h; exact absurd h (by simp)
  | ok bs => exact loadBytes_ok_limit hb

theorem load4_ok_limit {buf : List Nat} {off l b : Nat}
    (h : load4 buf off (some l) = .ok b) : off + 4 ≤ l := by
  unfold load4 at h
  cases hb : loadBytes buf off 4 (some l) with
  | error e => rw [hb] at h; exact absurd h (by simp)
  | ok bs => exact loadBytes_ok_limit hb

theorem skipQuestion_inv {buf : List Nat} {off nxt : Nat}
    (h : skipQuestion buf off = .ok nxt) :
    ∃ o, skipName buf off = .ok o ∧ nxt = o + 4 := by
  unfold skipQuestion at h
  cases hs : skipName buf off with
  | error e => rw [hs] at h; exact absurd h (by simp)
  | ok o => rw [hs] at h; simp at h; exact ⟨o, rfl, h.symm⟩

theorem skipResource_inv {buf : List Nat} {off nxt : Nat}
    (h : skipResource buf off = .ok nxt) :
    ∃ o len, skipName buf off = .ok o ∧ load2 buf (o + 8) none = .ok len ∧
      nxt = o + 10 + len := by
  unfold skipResource at h
  cases hs : skipName buf off with
  | error e => rw [hs] at h; exact absurd h (by simp)
  | ok o =>
    rw [hs] at h; dsimp only at h
    cases hl : load2 buf (o + 8) none with
    | error e => rw [hl] at h; exact absurd h (by simp)
    | ok len => rw [hl] at h; simp at h; exact ⟨o, len, rfl, hl, h.symm⟩

theorem skipQuestion_agree_hole {b1 b2 : List Nat} {off o : Nat}
    (hlen : b2.length = b1.length) (hs : skipName b1 off = .ok o)
    (hag : ∀ i, off ≤ i → i < o → b2.getD i 0 = b1.getD i 0) :
    skipQuestion b2 off = .ok (o + 4) := by
  unfold skipQuestion
  rw [skipName_agree hlen off o hs hag]

theorem skipResource_agree_hole {b1 b2 : List Nat} {off o len : Nat}
    (hlen : b2.length = b1.length) (hs : skipName b1 off = .ok o)
    (hl : load2 b1 (o + 8) none = .ok len)
    (hag1 : ∀ i, off ≤ i → i < o → b2.getD i 0 = b1.getD i 0)
    (hag2 : ∀ i, o + 8 ≤ i → i < o + 10 → b2.getD i 0 = b1.getD i 0) :
    skipResource b2 off = .ok (o + 10 + len) := by
  unfold skipResource
  rw [skipName_agree hlen off o hs hag1]
  dsimp only
  rw [load2_agree hlen hag2 hl]

theorem scanQuestions_mono {buf : List Nat} :
    ∀ (n off e : Nat), scanQuestions buf n off = .ok e → off ≤ e := by
  intro n
  induction n with
  | zero =>
    intro off e h
    simp only [scanQuestions, Except.ok.injEq] at h
    omega
  | succ n ih =>
    intro off e h
    simp only [scanQuestions] at h
    cases hs : skipQuestion buf off with
    | error e2 => rw [hs] at h; exact absurd h (by simp)
    | ok m =>
      rw [hs] at h; dsimp only at h
      obtain ⟨o, ho, rfl⟩ := skipQuestion_inv hs
      have h1 := skipName_gt buf off o ho
      have h2 := ih _ _ h
      omega

theorem scanResources_mono {buf : List Nat} :
    ∀ (n off e : Nat), scanResources buf n off = .ok e → off ≤ e := by
  intro n
  induction n with
  | zero =>
    intro off e h
    simp only [scanResources, Except.ok.injEq] at h
    omega
  | succ n ih =>
    intro off e h
    simp only [scanResources] at h
    cases hs : skipResource buf off with
    | error e2 => rw [hs] at h; exact absurd h (by simp)
    | ok m =>
      rw [hs] at h; dsimp only at h
      obtain ⟨o, len, ho, hl, rfl⟩ := skipResource_inv hs
      have h1 := skipName_gt buf off o ho
      have h2 := ih _ _ h
      omega

theorem scanQuestions_agree {b1 b2 : List Nat} (hlen : b2.length = b1.length) :
    ∀ (n off e : Nat), scanQuestions b1 n off = .ok e →
    (∀ i, off ≤ i → i < e → b2.getD i 0 = b1.getD i 0) →
    scanQuestions b2 n off = .ok e := by
  intro n
  induction n with
  | zero => intro off e h _; exact h
  | succ n ih =>
    intro off e h hag
    simp only [scanQuestions] at h ⊢
    cases hs : skipQuestion b1 off with
    | error e2 => rw [hs] at h; exact absurd h (by simp)
    | ok m =>
      rw [hs] at h; dsimp only at h
      obtain ⟨o, ho, rfl⟩ := skipQuestion_inv hs
      have h1 := skipName_gt b1 off o ho
      have h2 := scanQuestions_mono _ _ _ h
      have hs2 : skipQuestion b2 off = .ok (o + 4) :=
        skipQuestion_agree_hole hlen ho (fun i hi1 hi2 => hag i hi1 (by omega))
      rw [hs2]; dsimp only
      exact ih _ _ h (fun i hi1 hi2 => hag i (by omega) hi2)

theorem scanResources_agree {b1 b2 : List Nat} (hlen : b2.length = b1.length) :
    ∀ (n off e : Nat), scanResources b1 n off = .ok e →
    (∀ i, off ≤ i → i < e → b2.getD i 0 = b1.getD i 0) →
    scanResources b2 n off = .ok e := by
  intro n
  induction n with
  | zero => intro off e h _; exact h
  | succ n ih =>
    intro off e h hag
    simp only [scanResources] at h ⊢
    cases hs : skipResource b1 off with
    | error e2 => rw [hs] at h; exact absurd h (by simp)
    | ok m =>
      rw [hs] at h; dsimp only at h
      obtain ⟨o, len, ho, hl, rfl⟩ := skipResource_inv hs
      have h1 := skipName_gt b1 off o ho
      have h2 := scanResources_mono _ _ _ h
      have hs2 : skipResource b2 off = .ok (o + 10 + len) :=
        skipResource_agree_hole hlen ho hl
          (fun i hi1 hi2 => hag i hi1 (by omega))
          (fun i hi1 hi2 => hag i (by omega) (by omega))
      rw [hs2]; dsimp only
      exact ih _ _ h (fun i hi1 hi2 => hag i (by omega) hi2)

theorem scanQuestions_append {buf : List Nat} :
    ∀ (a b off m e : Nat), scanQuestions buf a off = .ok m →
    scanQuestions buf b m = .ok e → scanQuestions buf (a + b) off = .ok e := by
  intro a
  induction a with
  | zero =>
    intro b off m e h1 h2
    simp only [scanQuestions, Except.ok.injEq] at h1
    rw [Nat.zero_add]; rw [h1]; exact h2
  | succ a ih =>
    intro b off m e h1 h2
    simp only [scanQuestions] at h1
    have hadd : a + 1 + b = (a + b) + 1 := by omega
    rw [hadd]
    simp only [scanQuestions]
    cases hs : skipQuestion buf off with
    | error e2 => rw [hs] at h1; exact absurd h1 (by simp)
    | ok o =>
      rw [hs] at h1; dsimp only at h1
      dsimp only
      exact ih b o m e h1 h2

theorem scanResources_append {buf : List Nat} :
    ∀ (a b off m e : Nat), scanResources buf a off = .ok m →
    scanResources buf b m = .ok e → scanResources buf (a + b) off = .ok e := by
  intro a
  induction a with
  | zero =>
    intro b off m e h1 h2
    simp only [scanResources, Except.ok.injEq] at h1
    rw [Nat.zero_add]; rw [h1]; exact h2
  | succ a ih =>
    intro b off m e h1 h2
    simp only [scanResources] at h1
    have hadd : a + 1 + b = (a + b) + 1 := by omega
    rw [hadd]
    simp only [scanResources]
    cases hs : skipResource buf off with
    | error e2 => rw [hs] at h1; exact absurd h1 (by simp)
    | ok o =>
      rw [hs] at h1; dsimp only at h1
      dsimp only
      exact ih b o m e h1 h2

theorem scanQuestions_split {buf : List Nat} :
    ∀ (a b off e : Nat), scanQuestions buf (a + b) off = .ok e →
    ∃ m, scanQuestions buf a off = .ok m ∧ scanQuestions buf b m = .ok e := by
  intro a
  induction a with
  | zero =>
    intro b off e h
    rw [Nat.zero_add] at h
    exact ⟨off, rfl, h⟩
  | succ a ih =>
    intro b off e h
    have hadd : a + 1 + b = (a + b) + 1 := by omega
    rw [hadd] at h
    simp only [scanQuestions] at h
    cases hs : skipQuestion buf off with
    | error e2 => rw [hs] at h; exact absurd h (by simp)
    | ok o =>
      rw [hs] at h; dsimp only at h
      obtain ⟨m, hm1, hm2⟩ := ih b o e h
      refine ⟨m, ?_, hm2⟩
      simp only [scanQuestions]
      rw [hs]
      exact hm1

theorem scanResources_split {buf : List Nat} :
    ∀ (a b off e : Nat), scanResources buf (a + b) off = .ok e →
    ∃ m, scanResources buf a off = .ok m ∧ scanResources buf b m = .ok e := by
  intro a
  induction a with
  | zero =>
    intro b off e h
    rw [Nat.zero_add] at h
    exact ⟨off, rfl, h⟩
  | succ a ih =>
    intro b off e h
    have hadd : a + 1 + b = (a + b) + 1 := by omega
    rw [hadd] at h
    simp only [scanResources] at h
    cases hs : skipResource buf off with
    | error e2 => rw [hs] at h; exact absurd h (by simp)
    | ok o =>
      rw [hs] at h; dsimp only at h
      obtain ⟨m, hm1, hm2⟩ := ih b o e h
      refine ⟨m, ?_, hm2⟩
      simp only [scanResources]
      rw [hs]
      exact hm1

theorem scanQuestions_hole {b1 b2 : List Nat} {n start e k mid o lo hi : Nat}
    (hlen : b2.length = b1.length)
    (hn : scanQuestions b1 n start = .ok e)
    (hk : scanQuestions b1 k start = .ok mid) (hkn : k < n)
    (hs : skipName b1 mid = .ok o)
    (hlo : o ≤ lo) (hhi : hi ≤ o + 4)
    (hag : ∀ i, i < lo ∨ hi ≤ i → b2.getD i 0 = b1.getD i 0) :
    scanQuestions b2 n start = .ok e ∧ o + 4 ≤ e := by
  have hsplit : n = k + (n - k) := by omega
  rw [hsplit] at hn
  obtain ⟨m, hm1, hm2⟩ := scanQuestions_split _ _ _ _ hn
  have hmm : m = mid := by rw [hk] at hm1; exact (Except.ok.inj hm1).symm
  subst hmm
  obtain ⟨j, hj⟩ : ∃ j, n - k = j + 1 := ⟨n - k - 1, by omega⟩
  rw [hj] at hm2
  simp only [scanQuestions] at hm2
  have hsq : skipQuestion b1 m = .ok (o + 4) := by
    unfold skipQuestion; rw [hs]
  rw [hsq] at hm2; dsimp only at hm2
  have hmid1 : start ≤ m := scanQuestions_mono _ _ _ hk
  have hmid2 : m < o := skipName_gt _ _ _ hs
  have he1 : o + 4 ≤ e := scanQuestions_mono _ _ _ hm2
  refine ⟨?_, he1⟩
  have hb2k : scanQuestions b2 k start = .ok m :=
    scanQuestions_agree hlen _ _ _ hk
      (fun i h1 h2 => hag i (Or.inl (by omega)))
  have hb2s : skipQuestion b2 m = .ok (o + 4) :=
    skipQuestion_agree_hole hlen hs
      (fun i h1 h2 => hag i (Or.inl (by omega)))
  have hb2r : scanQuestions b2 j (o + 4) = .ok e :=
    scanQuestions_agree hlen _ _ _ hm2
      (fun i h1 h2 => hag i (Or.inr (by omega)))
  have hstep : scanQuestions b2 (j + 1) m = .ok e := by
    simp only [scanQuestions]; rw [hb2s]; exact hb2r
  have := scanQuestions_append _ _ _ _ _ hb2k hstep
  rw [show k + (j + 1) = n by omega] at this
  exact this

theorem scanResources_hole {b1 b2 : List Nat} {n start e k mid o len lo hi : Nat}
    (hlen : b2.length = b1.length)
    (hn : scanResources b1 n start = .ok e)
    (hk : scanResources b1 k start = .ok mid) (hkn : k < n)
    (hs : skipName b1 mid = .ok o)
    (hl : load2 b1 (o + 8) none = .ok len)
    (hlo : o ≤ lo) (hhi : hi ≤ o + 8)
    (hag : ∀ i, i < lo ∨ hi ≤ i → b2.getD i 0 = b1.getD i 0) :
    scanResources b2 n start = .ok e ∧ o + 10 + len ≤ e := by
  have hsplit : n = k + (n - k) := by omega
  rw [hsplit] at hn
  obtain ⟨m, hm1, hm2⟩ := scanResources_split _ _ _ _ hn
  have hmm : m = mid := by rw [hk] at hm1; exact (Except.ok.inj hm1).symm
  subst hmm
  obtain ⟨j, hj⟩ : ∃ j, n - k = j + 1 := ⟨n - k - 1, by omega⟩
  rw [hj] at hm2
  simp only [scanResources] at hm2
  have hsq : skipResource b1 m = .ok (o + 10 + len) := by
    unfold skipResource; rw [hs]; dsimp only; rw [hl]
  rw [hsq] at hm2; dsimp only at hm2
  have hmid1 : start ≤ m := scanResources_mono _ _ _ hk
  have hmid2 : m < o := skipName_gt _ _ _ hs
  have he1 : o + 10 + len ≤ e := scanResources_mono _ _ _ hm2
  refine ⟨?_, he1⟩
  have hb2k : scanResources b2 k start = .ok m :=
    scanResources_agree hlen _ _ _ hk
      (fun i h1 h2 => hag i (Or.inl (by omega)))
  have hb2s : skipResource b2 m = .ok (o + 10 + len) :=
    skipResource_agree_hole hlen hs hl
      (fun i h1 h2 => hag i (Or.inl (by omega)))
      (fun i h1 h2 => hag i (Or.inr (by omega)))
  have hb2r : scanResources b2 j (o + 10 + len) = .ok e :=
    scanResources_agree hlen _ _ _ hm2
      (fun i h1 h2 => hag i (Or.inr (by omega)))
  have hstep : scanResources b2 (j + 1) m = .ok e := by
    simp only [scanResources]; rw [hb2s]; exact hb2r
  have := scanResources_append _ _ _ _ _ hb2k hstep
  rw [show k + (j + 1) = n by omega] at this
  exact this

theorem collect_inv {buf : List Nat} {s : Sections} {fin : Nat}
    (h : collectSections buf = .ok (s, fin)) :
    load2 buf 4 none = .ok s.questions ∧ load2 buf 6 none = .ok s.answers ∧
    load2 buf 8 none = .ok s.authorities ∧
    load2 buf 10 none = .ok s.additionals ∧ s.questionsOff = 12 ∧
    scanQuestions buf s.questions 12 = .ok s.answersOff ∧
    scanResources buf s.answers s.answersOff = .ok s.authoritiesOff ∧
    scanResources buf s.authorities s.authoritiesOff = .ok s.additionalsOff ∧
    scanResources buf s.additionals s.additionalsOff = .ok fin := by
  unfold collectSections at h
  cases h1 : load2 buf 4 none with
  | error e => rw [h1] at h; exact absurd h (by simp)
  | ok questions =>
  rw [h1] at h; dsimp only at h
  cases h2 : load2 buf 6 none with
  | error e => rw [h2] at h; exact absurd h (by simp)
  | ok answers =>
  rw [h2] at h; dsimp only at h
  cases h3 : load2 buf 8 none with
  | error e => rw [h3] at h; exact absurd h (by simp)
  | ok authorities =>
  rw [h3] at h; dsimp only at h
  cases h4 : load2 buf 10 none with
  | error e => rw [h4] at h; exact absurd h (by simp)
  | ok additionals =>
  rw [h4] at h; dsimp only at h
  cases h5 : scanQuestions buf questions 12 with
  | error e => rw [h5] at h; exact absurd h (by simp)
  | ok answersOff =>
  rw [h5] at h; dsimp only at h
  cases h6 : scanResources buf answers answersOff with
  | error e => rw [h6] at h; exact absurd h (by simp)
  | ok authoritiesOff =>
  rw [h6] at h; dsimp only at h
  cases h7 : scanResources buf authorities authoritiesOff with
  | error e => rw [h7] at h; exact absurd h (by simp)
  | ok additionalsOff =>
  rw [h7] at h; dsimp only at h
  cases h8 : scanResources buf additionals additionalsOff with
  | error e => rw [h8] at h; exact absurd h (by simp)
  | ok final =>
  rw [h8] at h; dsimp only at h
  have hinj := Except.ok.inj h
  have hsec : s = ⟨questions, 12, answers, answersOff, authorities,
      authoritiesOff, additionals, additionalsOff⟩ := (congrArg Prod.fst hinj).symm
  have hfin : fin = final := (congrArg Prod.snd hinj).symm
  subst hsec; subst hfin
  exact ⟨rfl, rfl, rfl, rfl, rfl, h5, h6, h7, h8⟩

theorem collect_intro {buf : List Nat} {s : Sections} {fin : Nat}
    (h1 : load2 buf 4 none = .ok s.questions)
    (h2 : load2 buf 6 none = .ok s.answers)
    (h3 : load2 buf 8 none = .ok s.authorities)
    (h4 : load2 buf 10 none = .ok s.additionals)
    (h0 : s.questionsOff = 12)
    (h5 : scanQuestions buf s.questions 12 = .ok s.answersOff)
    (h6 : scanResources buf s.answers s.answersOff = .ok s.authoritiesOff)
    (h7 : scanResources buf s.authorities s.authoritiesOff = .ok s.additionalsOff)
    (h8 : scanResources buf s.additionals s.additionalsOff = .ok fin) :
    collectSections buf = .ok (s, fin) := by
  unfold collectSections
  rw [h1]; dsimp only
  rw [h2]; dsimp only
  rw [h3]; dsimp only
  rw [h4]; dsimp only
  rw [h5]; dsimp only
  rw [h6]; dsimp only
  rw [h7]; dsimp only
  rw [h8]; dsimp only
  obtain ⟨q, qo, a, ao, au, auo, ad, ado⟩ := s
  dsimp only at h0 ⊢
  rw [h0]

theorem collectSections_holeQ {b1 b2 : List Nat} {s : Sections}
    {fin k mid o lo hi : Nat}
    (hlen : b2.length = b1.length)
    (hc : collectSections b1 = .ok (s, fin))
    (hk : scanQuestions b1 k 12 = .ok mid) (hkn : k < s.questions)
    (hs : skipName b1 mid = .ok o)
    (hlo : o ≤ lo) (hhi : hi ≤ o + 4)
    (hag : ∀ i, i < lo ∨ hi ≤ i → b2.getD i 0 = b1.getD i 0) :
    collectSections b2 = .ok (s, fin) := by
  obtain ⟨h1, h2, h3, h4, h0, h5, h6, h7, h8⟩ := collect_inv hc
  have hmid1 : 12 ≤ mid := scanQuestions_mono _ _ _ hk
  have hmid2 : mid < o := skipName_gt _ _ _ hs
  have g1 := load2_agree hlen (fun i hi1 hi2 => hag i (Or.inl (by omega))) h1
  have g2 := load2_agree hlen (fun i hi1 hi2 => hag i (Or.inl (by omega))) h2
  have g3 := load2_agree hlen (fun i hi1 hi2 => hag i (Or.inl (by omega))) h3
  have g4 := load2_agree hlen (fun i hi1 hi2 => hag i (Or.inl (by omega))) h4
  obtain ⟨g5, hb5⟩ := scanQuestions_hole hlen h5 hk hkn hs hlo hhi hag
  have hm6 := scanResources_mono _ _ _ h6
  have hm7 := scanResources_mono _ _ _ h7
  have g6 := scanResources_agree hlen _ _ _ h6
    (fun i hi1 hi2 => hag i (Or.inr (by omega)))
  have g7 := scanResources_agree hlen _ _ _ h7
    (fun i hi1 hi2 => hag i (Or.inr (by omega)))
  have g8 := scanResources_agree hlen _ _ _ h8
    (fun i hi1 hi2 => hag i (Or.inr (by omega)))
  exact collect_intro g1 g2 g3 g4 h0 g5 g6 g7 g8

theorem collectSections_holeR {b1 b2 : List Nat} {s : Sections}
    {fin k astart mid o len lo hi : Nat}
    (hlen : b2.length = b1.length)
    (hc : collectSections b1 = .ok (s, fin))
    (hk : scanResources b1 k astart = .ok mid)
    (hsec : (astart = s.answersOff ∧ k < s.answers) ∨
      (astart = s.authoritiesOff ∧ k < s.authorities) ∨
      (astart = s.additionalsOff ∧ k < s.additionals))
    (hs : skipName b1 mid = .ok o)
    (hl : load2 b1 (o + 8) none = .ok len)
    (hlo : o ≤ lo) (hhi : hi ≤ o + 8)
    (hag : ∀ i, i < lo ∨ hi ≤ i → b2.getD i 0 = b1.getD i 0) :
    collectSections b2 = .ok (s, fin) := by
  obtain ⟨h1, h2, h3, h4, h0, h5, h6, h7, h8⟩ := collect_inv hc
  have hm5 : 12 ≤ s.answersOff := scanQuestions_mono _ _ _ h5
  have hm6 : s.answersOff ≤ s.authoritiesOff := scanResources_mono _ _ _ h6
  have hm7 : s.authoritiesOff ≤ s.additionalsOff := scanResources_mono _ _ _ h7
  have hm8 : s.additionalsOff ≤ fin := scanResources_mono _ _ _ h8
  have hmid2 : mid < o := skipName_gt _ _ _ hs
  rcases hsec with ⟨rfl, hkn⟩ | ⟨rfl, hkn⟩ | ⟨rfl, hkn⟩
  · have hmid1 : s.answersOff ≤ mid := scanResources_mono _ _ _ hk
    have g1 := load2_agree hlen (fun i hi1 hi2 => hag i (Or.inl (by omega))) h1
    have g2 := load2_agree hlen (fun i hi1 hi2 => hag i (Or.inl (by omega))) h2
    have g3 := load2_agree hlen (fun i hi1 hi2 => hag i (Or.inl (by omega))) h3
    have g4 := load2_agree hlen (fun i hi1 hi2 => hag i (Or.inl (by omega))) h4
    have g5 := scanQuestions_agree hlen _ _ _ h5
      (fun i hi1 hi2 => hag i (Or.inl (by omega)))
    obtain ⟨g6, hb6⟩ := scanResources_hole hlen h6 hk hkn hs hl hlo hhi hag
    have g7 := scanResources_agree hlen _ _ _ h7
      (fun i hi1 hi2 => hag i (Or.inr (by omega)))
    have g8 := scanResources_agree hlen _ _ _ h8
      (fun i hi1 hi2 => hag i (Or.inr (by omega)))
    exact collect_intro g1 g2 g3 g4 h0 g5 g6 g7 g8
  · have hmid1 : s.authoritiesOff ≤ mid := scanResources_mono _ _ _ hk
    have g1 := load2_agree hlen (fun i hi1 hi2 => hag i (Or.inl (by omega))) h1
    have g2 := load2_agree hlen (fun i hi1 hi2 => hag i (Or.inl (by omega))) h2
    have g3 := load2_agree hlen (fun i hi1 hi2 => hag i (Or.inl (by omega))) h3
    have g4 := load2_agree hlen (fun i hi1 hi2 => hag i (Or.inl (by omega))) h4
    have g5 := scanQuestions_agree hlen _ _ _ h5
      (fun i hi1 hi2 => hag i (Or.inl (by omega)))
    have g6 := scanResources_agree hlen _ _ _ h6
      (fun i hi1 hi2 => hag i (Or.inl (by omega)))
    obtain ⟨g7, hb7⟩ := scanResources_hole hlen h7 hk hkn hs hl hlo hhi hag
    have g8 := scanResources_agree hlen _ _ _ h8
      (fun i hi1 hi2 => hag i (Or.inr (by omega)))
    exact collect_intro g1 g2 g3 g4 h0 g5 g6 g7 g8
  · have hmid1 : s.additionalsOff ≤ mid := scanResources_mono _ _ _ hk
    have g1 := load2_agree hlen (fun i hi1 hi2 => hag i (Or.inl (by omega))) h1
    have g2 := load2_agree hlen (fun i hi1 hi2 => hag i (Or.inl (by omega))) h2
    have g3 := load2_agree hlen (fun i hi1 hi2 => hag i (Or.inl (by omega))) h3
    have g4 := load2_agree hlen (fun i hi1 hi2 => hag i (Or.inl (by omega))) h4
    have g5 := scanQuestions_agree hlen _ _ _ h5
      (fun i hi1 hi2 => hag i (Or.inl (by omega)))
    have g6 := scanResources_agree hlen _ _ _ h6
      (fun i hi1 hi2 => hag i (Or.inl (by omega)))
    have g7 := scanResources_agree hlen _ _ _ h7
      (fun i hi1 hi2 => hag i (Or.inl (by omega)))
    obtain ⟨g8, hb8⟩ := scanResources_hole hlen h8 hk hkn hs hl hlo hhi hag
    exact collect_intro g1 g2 g3 g4 h0 g5 g6 g7 g8

theorem txtChunks_agree {b1 b2 : List Nat} (hlen : b2.length = b1.length) :
    ∀ (off limit : Nat) (ts : List (List Nat)),
    txtChunks b1 off limit = .ok ts →
    (∀ i, off ≤ i → i < limit → b2.getD i 0 = b1.getD i 0) →
    txtChunks b2 off limit = .ok ts := by
  intro off limit
  induction off, limit using txtChunks.induct b1 with
  | case1 off limit hlt e he =>
    intro ts h _
    rw [txtChunks, dif_pos hlt, he] at h
    exact absurd h (by simp)
  | case2 off limit hlt o ho hov =>
    intro ts h _
    rw [txtChunks, dif_pos hlt, ho] at h
    dsimp only at h
    rw [if_pos hov] at h
    exact absurd h (by simp)
  | case3 off limit hlt o ho hnov hlim =>
    intro ts h _
    rw [txtChunks, dif_pos hlt, ho] at h
    dsimp only at h
    rw [if_neg hnov, if_pos hlim] at h
    exact absurd h (by simp)
  | case4 off limit hlt o ho hnov hnlim e he ih =>
    intro ts h _
    rw [txtChunks, dif_pos hlt, ho] at h
    dsimp only at h
    rw [if_neg hnov, if_neg hnlim, he] at h
    exact absurd h (by simp)
  | case5 off limit hlt o ho hnov hnlim rest hr ih =>
    intro ts h hag
    rw [txtChunks, dif_pos hlt, ho] at h
    dsimp only at h
    rw [if_neg hnov, if_neg hnlim, hr] at h
    dsimp only at h
    have ho2 : load1 b2 off (some limit) = .ok o :=
      load1_agree hlen (fun i h1 h2 => hag i h1 (by omega)) ho
    have hr2 : txtChunks b2 (off + 1 + o) limit = .ok rest :=
      ih rest hr (fun i h1 h2 => hag i (by omega) h2)
    have hsl : (b2.drop (off + 1)).take o = (b1.drop (off + 1)).take o :=
      getD_slice_eq hlen (by omega)
        (fun i h1 h2 => hag i (by omega) (by omega))
    rw [txtChunks, dif_pos hlt, ho2]
    dsimp only
    rw [hlen, if_neg hnov, if_neg hnlim, hr2]
    dsimp only
    rw [hsl]
    exact h
  | case6 off limit hnlt =>
    intro ts h _
    rw [txtChunks, dif_neg hnlt] at h
    rw [txtChunks, dif_neg hnlt]
    exact h

theorem parseQuestion_inv {buf : List Nat} {off : Nat} {q : PQuestion} {nxt : Nat}
    (h : parseQuestion buf off = .ok (q, nxt)) :
    ∃ o t c, skipName buf off = .ok o ∧ load2 buf o none = .ok t ∧
      load2 buf (o + 2) none = .ok c ∧
      q = ⟨off, muTypeFrom t, muClassFrom c⟩ ∧ nxt = o + 4 := by
  unfold parseQuestion at h
  cases hs : skipName buf off with
  | error e => rw [hs] at h; exact absurd h (by simp)
  | ok o =>
  rw [hs] at h; dsimp only at h
  cases ht : load2 buf o none with
  | error e => rw [ht] at h; exact absurd h (by simp)
  | ok t =>
  rw [ht] at h; dsimp only at h
  cases hc : load2 buf (o + 2) none with
  | error e => rw [hc] at h; exact absurd h (by simp)
  | ok c =>
  rw [hc] at h; dsimp only at h
  have hinj := Except.ok.inj h
  exact ⟨o, t, c, rfl, ht, hc, (congrArg Prod.fst hinj).symm,
    (congrArg Prod.snd hinj).symm⟩

theorem parseQuestion_agree {b1 b2 : List Nat} {off : Nat} {q : PQuestion}
    {nxt : Nat} (hlen : b2.length = b1.length)
    (h : parseQuestion b1 off = .ok (q, nxt))
    (hag : ∀ i, off ≤ i → i < nxt → b2.getD i 0 = b1.getD i 0) :
    parseQuestion b2 off = .ok (q, nxt) := by
  obtain ⟨o, t, c, hs, ht, hc, hq, hnxt⟩ := parseQuestion_inv h
  subst hq; subst hnxt
  have hgt := skipName_gt _ _ _ hs
  have hs2 : skipName b2 off = .ok o :=
    skipName_agree hlen off o hs (fun i h1 h2 => hag i h1 (by omega))
  have ht2 : load2 b2 o none = .ok t :=
    load2_agree hlen (fun i h1 h2 => hag i (by omega) (by omega)) ht
  have hc2 : load2 b2 (o + 2) none = .ok c :=
    load2_agree hlen (fun i h1 h2 => hag i (by omega) (by omega)) hc
  unfold parseQuestion
  rw [hs2]; dsimp only
  rw [ht2]; dsimp only
  rw [hc2]

theorem slice_agree {b1 b2 : List Nat} {off limit : Nat}
    (hlen : b2.length = b1.length) (hnb : ¬ b1.length < limit)
    (hag : ∀ i, off ≤ i → i < limit → b2.getD i 0 = b1.getD i 0) :
    (b2.drop off).take (limit - off) = (b1.drop off).take (limit - off) := by
  cases hn : limit - off with
  | zero => simp
  | succ m =>
    exact getD_slice_eq hlen (by omega) (fun i h1 h2 => hag i h1 (by omega))

theorem parseRData_agree {b1 b2 : List Nat} {off limit : Nat} {typ : MU RType}
    {d : PRData} (hlen : b2.length = b1.length)
    (h : parseRData b1 off limit typ = .ok d)
    (hag : ∀ i, off ≤ i → i < limit → b2.getD i 0 = b1.getD i 0) :
    parseRData b2 off limit typ = .ok d := by
  cases typ with
  | known k =>
    cases k with
    | A =>
      unfold parseRData at h ⊢
      dsimp only at h ⊢
      cases hb : loadBytes b1 off 4 (some limit) with
      | error e => rw [hb] at h; exact absurd h (by simp)
      | ok bs =>
        rw [hb] at h
        have hlim := loadBytes_ok_limit hb
        rw [loadBytes_agree hlen (fun i h1 h2 => hag i h1 (by omega)) hb]
        exact h
    | NS => exact h
    | CNAME => exact h
    | SOA =>
      unfold parseRData at h ⊢
      dsimp only at h ⊢
      cases hs1 : skipName b1 off with
      | error e => rw [hs1] at h; exact absurd h (by simp)
      | ok o1 =>
      rw [hs1] at h; dsimp only at h
      cases hs2 : skipName b1 o1 with
      | error e => rw [hs2] at h; exact absurd h (by simp)
      | ok o2 =>
      rw [hs2] at h; dsimp only at h
      cases hl1 : load4 b1 o2 (some limit) with
      | error e => rw [hl1] at h; exact absurd h (by simp)
      | ok serial =>
      rw [hl1] at h; dsimp only at h
      cases hl2 : load4 b1 (o2 + 4) (some limit) with
      | error e => rw [hl2] at h; exact absurd h (by simp)
      | ok refresh =>
      rw [hl2] at h; dsimp only at h
      cases hl3 : load4 b1 (o2 + 8) (some limit) with
      | error e => rw [hl3] at h; exact absurd h (by simp)
      | ok retry =>
      rw [hl3] at h; dsimp only at h
      cases hl4 : load4 b1 (o2 + 12) (some limit) with
      | error e => rw [hl4] at h; exact absurd h (by simp)
      | ok expire =>
      rw [hl4] at h; dsimp only at h
      cases hl5 : load4 b1 (o2 + 16) (some limit) with
      | error e => rw [hl5] at h; exact absurd h (by simp)
      | ok minTtl =>
      rw [hl5] at h; dsimp only at h
      have hg1 := skipName_gt _ _ _ hs1
      have hg2 := skipName_gt _ _ _ hs2
      have hb1 := load4_ok_limit hl1
      have hb5 := load4_ok_limit hl5
      have hs1b : skipName b2 off = .ok o1 :=
        skipName_agree hlen off o1 hs1 (fun i h1 h2 => hag i h1 (by omega))
      have hs2b : skipName b2 o1 = .ok o2 :=
        skipName_agree hlen o1 o2 hs2 (fun i h1 h2 => hag i (by omega) (by omega))
      have hl1b := load4_agree hlen
        (fun i h1 h2 => hag i (by omega) (by omega)) hl1
      have hl2b := load4_agree hlen
        (fun i h1 h2 => hag i (by omega) (by omega)) hl2
      have hl3b := load4_agree hlen
        (fun i h1 h2 => hag i (by omega) (by omega)) hl3
      have hl4b := load4_agree hlen
        (fun i h1 h2 => hag i (by omega) (by omega)) hl4
      have hl5b := load4_agree hlen
        (fun i h1 h2 => hag i (by omega) (by omega)) hl5
      rw [hs1b]; dsimp only
      rw [hs2b]; dsimp only
      rw [hl1b]; dsimp only
      rw [hl2b]; dsimp only
      rw [hl3b]; dsimp only
      rw [hl4b]; dsimp only
      rw [hl5b]; dsimp only
      exact h
    | PTR => exact h
    | MX =>
      unfold parseRData at h ⊢
      dsimp only at h ⊢
      cases hb : load2 b1 off (some limit) with
      | error e => rw [hb] at h; exact absurd h (by simp)
      | ok p =>
        rw [hb] at h
        have hlim := load2_ok_limit hb
        rw [load2_agree hlen (fun i h1 h2 => hag i h1 (by omega)) hb]
        exact h
    | TXT =>
      unfold parseRData at h ⊢
      dsimp only at h ⊢
      cases hb : txtChunks b1 off limit with
      | error e => rw [hb] at h; exact absurd h (by simp)
      | ok ts =>
        rw [hb] at h
        rw [txtChunks_agree hlen off limit ts hb hag]
        exact h
    | AAAA =>
      unfold parseRData at h ⊢
      dsimp only at h ⊢
      cases hb : loadBytes b1 off 16 (some limit) with
      | error e => rw [hb] at h; exact absurd h (by simp)
      | ok bs =>
        rw [hb] at h
        have hlim := loadBytes_ok_limit hb
        rw [loadBytes_agree hlen (fun i h1 h2 => hag i h1 (by omega)) hb]
        exact h
    | SRV =>
      unfold parseRData at h ⊢
      dsimp only at h ⊢
      cases hb1 : load2 b1 off (some limit) with
      | error e => rw [hb1] at h; exact absurd h (by simp)
      | ok p =>
      rw [hb1] at h; dsimp only at h
      cases hb2 : load2 b1 (off + 2) (some limit) with
      | error e => rw [hb2] at h; exact absurd h (by simp)
      | ok w =>
      rw [hb2] at h; dsimp only at h
      cases hb3 : load2 b1 (off + 4) (some limit) with
      | error e => rw [hb3] at h; exact absurd h (by simp)
      | ok port =>
      rw [hb3] at h; dsimp only at h
      have hl1 := load2_ok_limit hb1
      have hl2 := load2_ok_limit hb2
      have hl3 := load2_ok_limit hb3
      rw [load2_agree hlen (fun i h1 h2 => hag i h1 (by omega)) hb1]
      dsimp only
      rw [load2_agree hlen (fun i h1 h2 => hag i (by omega) (by omega)) hb2]
      dsimp only
      rw [load2_agree hlen (fun i h1 h2 => hag i (by omega) (by omega)) hb3]
      dsimp only
      exact h
    | OPT | WKS | HINFO | MINFO | AXFR | ALL =>
      unfold parseRData at h ⊢
      dsimp only at h ⊢
      by_cases hbl : b1.length < limit
      · rw [if_pos hbl] at h; exact absurd h (by simp)
      · rw [if_neg hbl] at h
        rw [hlen, if_neg hbl]
        rw [slice_agree hlen hbl hag]
        exact h
  | unknown v =>
    unfold parseRData at h ⊢
    dsimp only at h ⊢
    by_cases hbl : b1.length < limit
    · rw [if_pos hbl] at h; exact absurd h (by simp)
    · rw [if_neg hbl] at h
      rw [hlen, if_neg hbl]
      rw [slice_agree hlen hbl hag]
      exact h

theorem parseResource_inv {buf : List Nat} {off : Nat} {r : PResource}
    {nxt : Nat} (h : parseResource buf off = .ok (r, nxt)) :
    ∃ o t c ttl dlen d, skipName buf off = .ok o ∧
      load2 buf o none = .ok t ∧ load2 buf (o + 2) none = .ok c ∧
      load4 buf (o + 4) none = .ok ttl ∧ load2 buf (o + 8) none = .ok dlen ∧
      parseRData buf (o + 10) (o + 10 + dlen) (muTypeFrom t) = .ok d ∧
      r = ⟨off, muClassFrom c, ttl, d⟩ ∧ nxt = o + 10 + dlen := by
  unfold parseResource at h
  cases hs : skipName buf off with
  | error e => rw [hs] at h; exact absurd h (by simp)
  | ok o =>
  rw [hs] at h; dsimp only at h
  cases ht : load2 buf o none with
  | error e => rw [ht] at h; exact absurd h (by simp)
  | ok t =>
  rw [ht] at h; dsimp only at h
  cases hc : load2 buf (o + 2) none with
  | error e => rw [hc] at h; exact absurd h (by simp)
  | ok c =>
  rw [hc] at h; dsimp only at h
  cases httl : load4 buf (o + 4) none with
  | error e => rw [httl] at h; exact absurd h (by simp)
  | ok ttl =>
  rw [httl] at h; dsimp only at h
  cases hdl : load2 buf (o + 8) none with
  | error e => rw [hdl] at h; exact absurd h (by simp)
  | ok dlen =>
  rw [hdl] at h; dsimp only at h
  cases hd : parseRData buf (o + 10) (o + 10 + dlen) (muTypeFrom t) with
  | error e => rw [hd] at h; exact absurd h (by simp)
  | ok d =>
  rw [hd] at h; dsimp only at h
  have hinj := Except.ok.inj h
  exact ⟨o, t, c, ttl, dlen, d, rfl, ht, hc, httl, hdl, hd,
    (congrArg Prod.fst hinj).symm, (congrArg Prod.snd hinj).symm⟩

theorem parseResource_agree {b1 b2 : List Nat} {off : Nat} {r : PResource}
    {nxt : Nat} (hlen : b2.length = b1.length)
    (h : parseResource b1 off = .ok (r, nxt))
    (hag : ∀ i, off ≤ i → i < nxt → b2.getD i 0 = b1.getD i 0) :
    parseResource b2 off = .ok (r, nxt) := by
  obtain ⟨o, t, c, ttl, dlen, d, hs, ht, hc, httl, hdl, hd, hr, hnxt⟩ :=
    parseResource_inv h
  subst hr; subst hnxt
  have hgt := skipName_gt _ _ _ hs
  have hs2 : skipName b2 off = .ok o :=
    skipName_agree hlen off o hs (fun i h1 h2 => hag i h1 (by omega))
  have ht2 : load2 b2 o none = .ok t :=
    load2_agree hlen (fun i h1 h2 => hag i (by omega) (by omega)) ht
  have hc2 : load2 b2 (o + 2) none = .ok c :=
    load2_agree hlen (fun i h1 h2 => hag i (by omega) (by omega)) hc
  have httl2 : load4 b2 (o + 4) none = .ok ttl :=
    load4_agree hlen (fun i h1 h2 => hag i (by omega) (by omega)) httl
  have hdl2 : load2 b2 (o + 8) none = .ok dlen :=
    load2_agree hlen (fun i h1 h2 => hag i (by omega) (by omega)) hdl
  have hd2 : parseRData b2 (o + 10) (o + 10 + dlen) (muTypeFrom t) = .ok d :=
    parseRData_agree hlen hd (fun i h1 h2 => hag i (by omega) h2)
  unfold parseResource
  rw [hs2]; dsimp only
  rw [ht2]; dsimp only
  rw [hc2]; dsimp only
  rw [httl2]; dsimp only
  rw [hdl2]; dsimp only
  rw [hd2]

theorem storeBytes_ok {buf : List Nat} {off : Nat} {bs b2 : List Nat}
    (h : storeBytes buf off bs = .ok b2) :
    off + bs.length ≤ buf.length ∧ b2 = storeAt buf off bs := by
  unfold storeBytes at h
  by_cases hb : buf.length < off + bs.length
  · rw [if_pos hb] at h; exact absurd h (by simp)
  · rw [if_neg hb] at h
    refine ⟨by omega, ?_⟩
    have := Except.ok.inj h
    rw [← this]; rfl

theorem storeAt_getD_out {l : List Nat} {pos : Nat} {bs : List Nat}
    (hin : pos + bs.length ≤ l.length) :
    ∀ i, i < pos ∨ pos + bs.length ≤ i →
    (storeAt l pos bs).getD i 0 = l.getD i 0 := by
  intro i hi
  unfold storeAt
  rw [List.getD_eq_getElem?_getD, List.getD_eq_getElem?_getD]
  rcases hi with hlo | hhi
  · rw [List.getElem?_append,
      if_pos (by simp only [List.length_append, List.length_take]; omega)]
    rw [List.getElem?_append,
      if_pos (by simp only [List.length_take]; omega)]
    rw [List.getElem?_take, if_pos hlo]
  · rw [List.getElem?_append,
      if_neg (by simp only [List.length_append, List.length_take]; omega)]
    simp only [List.length_append, List.length_take]
    rw [List.getElem?_drop]
    congr 2
    omega

theorem load2_store {l : List Nat} {pos v : Nat} (hin : pos + 2 ≤ l.length) :
    load2 (storeAt l pos (toBE16 v)) pos none = .ok (v % 65536) := by
  have hlen2 : (toBE16 v).length = 2 := rfl
  have hlen : (storeAt l pos (toBE16 v)).length = l.length :=
    storeAt_length (by rw [hlen2]; omega)
  unfold load2 loadBytes
  rw [hlen, if_neg (by omega)]
  dsimp only
  have hrd : ((storeAt l pos (toBE16 v)).drop pos).take 2 = toBE16 v := by
    have h2 := @storeAt_read l pos (toBE16 v) (by rw [hlen2]; omega)
    rw [hlen2] at h2
    exact h2
  rw [hrd]
  simp only [toBE16, be16, List.getD_cons_zero, List.getD_cons_succ]
  congr 1
  omega

theorem load4_store {l : List Nat} {pos v : Nat} (hin : pos + 4 ≤ l.length) :
    load4 (storeAt l pos (toBE32 v)) pos none = .ok (v % 4294967296) := by
  have hlen4 : (toBE32 v).length = 4 := rfl
  have hlen : (storeAt l pos (toBE32 v)).length = l.length :=
    storeAt_length (by rw [hlen4]; omega)
  unfold load4 loadBytes
  rw [hlen, if_neg (by omega)]
  dsimp only
  have hrd : ((storeAt l pos (toBE32 v)).drop pos).take 4 = toBE32 v := by
    have h2 := @storeAt_read l pos (toBE32 v) (by rw [hlen4]; omega)
    rw [hlen4] at h2
    exact h2
  rw [hrd]
  simp only [toBE32, be32, List.getD_cons_zero, List.getD_cons_succ]
  congr 1
  omega

theorem cursorSetType_frame {buf b2 : List Nat} {pos o v : Nat}
    (h : cursorSetType buf pos v = .ok b2) (hs : skipName buf pos = .ok o) :
    b2.length = buf.length ∧
    ∀ i, i < o ∨ o + 2 ≤ i → b2.getD i 0 = buf.getD i 0 := by
  unfold cursorSetType at h
  rw [hs] at h; dsimp only at h
  obtain ⟨hin, rfl⟩ := storeBytes_ok h
  have h2 : (toBE16 v).length = 2 := rfl
  rw [h2] at hin
  refine ⟨storeAt_length (by rw [h2]; omega), ?_⟩
  intro i hi
  exact storeAt_getD_out (by rw [h2]; omega) i (by rw [h2]; omega)

theorem cursorSetClassQ_frame {buf b2 : List Nat} {pos o v : Nat}
    (h : cursorSetClassQ buf pos v = .ok b2) (hs : skipName buf pos = .ok o) :
    b2.length = buf.length ∧
    ∀ i, i < o + 2 ∨ o + 4 ≤ i → b2.getD i 0 = buf.getD i 0 := by
  unfold cursorSetClassQ at h
  rw [hs] at h; dsimp only at h
  obtain ⟨hin, rfl⟩ := storeBytes_ok h
  have h2 : (toBE16 v).length = 2 := rfl
  rw [h2] at hin
  refine ⟨storeAt_length (by rw [h2]; omega), ?_⟩
  intro i hi
  exact storeAt_getD_out (by rw [h2]; omega) i (by rw [h2]; omega)

theorem cursorSetClassR_frame {buf b2 : List Nat} {pos o v : Nat}
    (h : cursorSetClassR buf pos v = .ok b2) (hs : skipName buf pos = .ok o) :
    b2.length = buf.length ∧
    ∀ i, i < o + 2 ∨ o + 4 ≤ i → b2.getD i 0 = buf.getD i 0 := by
  unfold cursorSetClassR at h
  rw [hs] at h; dsimp only at h
  obtain ⟨hin, rfl⟩ := storeBytes_ok h
  have h2 : (toBE16 v).length = 2 := rfl
  rw [h2] at hin
  refine ⟨storeAt_length (by rw [h2]; omega), ?_⟩
  intro i hi
  exact storeAt_getD_out (by rw [h2]; omega) i (by rw [h2]; omega)

theorem cursorSetTtl_frame {buf b2 : List Nat} {pos o v : Nat}
    (h : cursorSetTtl buf pos v = .ok b2) (hs : skipName buf pos = .ok o) :
    b2.length = buf.length ∧
    ∀ i, i < o + 4 ∨ o + 8 ≤ i → b2.getD i 0 = buf.getD i 0 := by
  unfold cursorSetTtl at h
  rw [hs] at h; dsimp only at h
  obtain ⟨hin, rfl⟩ := storeBytes_ok h
  have h4 : (toBE32 v).length = 4 := rfl
  rw [h4] at hin
  refine ⟨storeAt_length (by rw [h4]; omega), ?_⟩
  intro i hi
  exact storeAt_getD_out (by rw [h4]; omega) i (by rw [h4]; omega)

theorem cursorSetType_reparse {buf b2 : List Nat} {roff v : Nat}
    {q : PQuestion} {nxt : Nat}
    (hp : parseQuestion buf roff = .ok (q, nxt))
    (hc : cursorSetType buf roff v = .ok b2) :
    parseQuestion b2 roff =
      .ok (⟨q.nameOff, muTypeFrom (v % 65536), q.cls⟩, nxt) := by
  obtain ⟨o, traw, craw, hs, ht, hcl, hq, hnxt⟩ := parseQuestion_inv hp
  subst hq; subst hnxt
  unfold cursorSetType at hc
  rw [hs] at hc; dsimp only at hc
  obtain ⟨hin, rfl⟩ := storeBytes_ok hc
  have h2 : (toBE16 v).length = 2 := rfl
  rw [h2] at hin
  have hlen : (storeAt buf o (toBE16 v)).length = buf.length :=
    storeAt_length (by rw [h2]; omega)
  have hout : ∀ i, i < o ∨ o + 2 ≤ i →
      (storeAt buf o (toBE16 v)).getD i 0 = buf.getD i 0 := by
    intro i hi
    exact storeAt_getD_out (by rw [h2]; omega) i (by rw [h2]; omega)
  have hs2 : skipName (storeAt buf o (toBE16 v)) roff = .ok o :=
    skipName_agree hlen roff o hs (fun i hx1 hx2 => hout i (Or.inl hx2))
  have ht2 : load2 (storeAt buf o (toBE16 v)) o none = .ok (v % 65536) :=
    load2_store (by omega)
  have hcl2 : load2 (storeAt buf o (toBE16 v)) (o + 2) none = .ok craw :=
    load2_agree hlen (fun i hx1 hx2 => hout i (Or.inr hx1)) hcl
  unfold parseQuestion
  rw [hs2]; dsimp only
  rw [ht2]; dsimp only
  rw [hcl2]

theorem cursorSetClassQ_reparse {buf b2 : List Nat} {roff v : Nat}
    {q : PQuestion} {nxt : Nat}
    (hp : parseQuestion buf roff = .ok (q, nxt))
    (hc : cursorSetClassQ buf roff v = .ok b2) :
    parseQuestion b2 roff =
      .ok (⟨q.nameOff, q.typ, muClassFrom (v % 65536)⟩, nxt) := by
  obtain ⟨o, traw, craw, hs, ht, hcl, hq, hnxt⟩ := parseQuestion_inv hp
  subst hq; subst hnxt
  unfold cursorSetClassQ at hc
  rw [hs] at hc; dsimp only at hc
  obtain ⟨hin, rfl⟩ := storeBytes_ok hc
  have h2 : (toBE16 v).length = 2 := rfl
  rw [h2] at hin
  have hlen : (storeAt buf (o + 2) (toBE16 v)).length = buf.length :=
    storeAt_length (by rw [h2]; omega)
  have hout : ∀ i, i < o + 2 ∨ o + 4 ≤ i →
      (storeAt buf (o + 2) (toBE16 v)).getD i 0 = buf.getD i 0 := by
    intro i hi
    exact storeAt_getD_out (by rw [h2]; omega) i (by rw [h2]; omega)
  have hgt := skipName_gt _ _ _ hs
  have hs2 : skipName (storeAt buf (o + 2) (toBE16 v)) roff = .ok o :=
    skipName_agree hlen roff o hs
      (fun i hx1 hx2 => hout i (Or.inl (by omega)))
  have ht2 : load2 (storeAt buf (o + 2) (toBE16 v)) o none = .ok traw :=
    load2_agree hlen (fun i hx1 hx2 => hout i (Or.inl (by omega))) ht
  have hcl2 : load2 (storeAt buf (o + 2) (toBE16 v)) (o + 2) none =
      .ok (v % 65536) := load2_store (by omega)
  unfold parseQuestion
  rw [hs2]; dsimp only
  rw [ht2]; dsimp only
  rw [hcl2]

theorem cursorSetClassR_reparse {buf b2 : List Nat} {roff v : Nat}
    {r : PResource} {nxt : Nat}
    (hp : parseResource buf roff = .ok (r, nxt))
    (hc : cursorSetClassR buf roff v = .ok b2) :
    parseResource b2 roff =
      .ok (⟨r.nameOff, muClassFrom (v % 65536), r.ttl, r.data⟩, nxt) := by
  obtain ⟨o, traw, craw, ttl, dlen, d, hs, ht, hcl, httl, hdl, hd, hr, hnxt⟩ :=
    parseResource_inv hp
  subst hr; subst hnxt
  unfold cursorSetClassR at hc
  rw [hs] at hc; dsimp only at hc
  obtain ⟨hin, rfl⟩ := storeBytes_ok hc
  have h2 : (toBE16 v).length = 2 := rfl
  rw [h2] at hin
  have hlen : (storeAt buf (o + 2) (toBE16 v)).length = buf.length :=
    storeAt_length (by rw [h2]; omega)
  have hout : ∀ i, i < o + 2 ∨ o + 4 ≤ i →
      (storeAt buf (o + 2) (toBE16 v)).getD i 0 = buf.getD i 0 := by
    intro i hi
    exact storeAt_getD_out (by rw [h2]; omega) i (by rw [h2]; omega)
  have hgt := skipName_gt _ _ _ hs
  have hs2 : skipName (storeAt buf (o + 2) (toBE16 v)) roff = .ok o :=
    skipName_agree hlen roff o hs
      (fun i hx1 hx2 => hout i (Or.inl (by omega)))
  have ht2 : load2 (storeAt buf (o + 2) (toBE16 v)) o none = .ok traw :=
    load2_agree hlen (fun i hx1 hx2 => hout i (Or.inl (by omega))) ht
  have hcl2 : load2 (storeAt buf (o + 2) (toBE16 v)) (o + 2) none =
      .ok (v % 65536) := load2_store (by omega)
  have httl2 : load4 (storeAt buf (o + 2) (toBE16 v)) (o + 4) none = .ok ttl :=
    load4_agree hlen (fun i hx1 hx2 => hout i (Or.inr (by omega))) httl
  have hdl2 : load2 (storeAt buf (o + 2) (toBE16 v)) (o + 8) none = .ok dlen :=
    load2_agree hlen (fun i hx1 hx2 => hout i (Or.inr (by omega))) hdl
  have hd2 : parseRData (storeAt buf (o + 2) (toBE16 v)) (o + 10)
      (o + 10 + dlen) (muTypeFrom traw) = .ok d :=
    parseRData_agree hlen hd (fun i hx1 hx2 => hout i (Or.inr (by omega)))
  unfold parseResource
  rw [hs2]; dsimp only
  rw [ht2]; dsimp only
  rw [hcl2]; dsimp only
  rw [httl2]; dsimp only
  rw [hdl2]; dsimp only
  rw [hd2]

theorem cursorSetTtl_reparse {buf b2 : List Nat} {roff v : Nat}
    {r : PResource} {nxt : Nat}
    (hp : parseResource buf roff = .ok (r, nxt))
    (hc : cursorSetTtl buf roff v = .ok b2) :
    parseResource b2 roff =
      .ok (⟨r.nameOff, r.cls, v % 4294967296, r.data⟩, nxt) := by
  obtain ⟨o, traw, craw, ttl, dlen, d, hs, ht, hcl, httl, hdl, hd, hr, hnxt⟩ :=
    parseResource_inv hp
  subst hr; subst hnxt
  unfold cursorSetTtl at hc
  rw [hs] at hc; dsimp only at hc
  obtain ⟨hin, rfl⟩ := storeBytes_ok hc
  have h4 : (toBE32 v).length = 4 := rfl
  rw [h4] at hin
  have hlen : (storeAt buf (o + 4) (toBE32 v)).length = buf.length :=
    storeAt_length (by rw [h4]; omega)
  have hout : ∀ i, i < o + 4 ∨ o + 8 ≤ i →
      (storeAt buf (o + 4) (toBE32 v)).getD i 0 = buf.getD i 0 := by
    intro i hi
    exact storeAt_getD_out (by rw [h4]; omega) i (by rw [h4]; omega)
  have hgt := skipName_gt _ _ _ hs
  have hs2 : skipName (storeAt buf (o + 4) (toBE32 v)) roff = .ok o :=
    skipName_agree hlen roff o hs
      (fun i hx1 hx2 => hout i (Or.inl (by omega)))
  have ht2 : load2 (storeAt buf (o + 4) (toBE32 v)) o none = .ok traw :=
    load2_agree hlen (fun i hx1 hx2 => hout i (Or.inl (by omega))) ht
  have hcl2 : load2 (storeAt buf (o + 4) (toBE32 v)) (o + 2) none = .ok craw :=
    load2_agree hlen (fun i hx1 hx2 => hout i (Or.inl (by omega))) hcl
  have httl2 : load4 (storeAt buf (o + 4) (toBE32 v)) (o + 4) none =
      .ok (v % 4294967296) := load4_store (by omega)
  have hdl2 : load2 (storeAt buf (o + 4) (toBE32 v)) (o + 8) none = .ok dlen :=
    load2_agree hlen (fun i hx1 hx2 => hout i (Or.inr (by omega))) hdl
  have hd2 : parseRData (storeAt buf (o + 4) (toBE32 v)) (o + 10)
      (o + 10 + dlen) (muTypeFrom traw) = .ok d :=
    parseRData_agree hlen hd (fun i hx1 hx2 => hout i (Or.inr (by omega)))
  unfold parseResource
  rw [hs2]; dsimp only
  rw [ht2]; dsimp only
  rw [hcl2]; dsimp only
  rw [httl2]; dsimp only
  rw [hdl2]; dsimp only
  rw [hd2]

theorem packetNew_stable {b1 b2 : List Nat} {s : Sections} {fin : Nat}
    (h1 : collectSections b1 = .ok (s, fin))
    (h2 : collectSections b2 = .ok (s, fin))
    (hlen : b2.length = b1.length) (hp : packetNew b1 = .ok s) :
    packetNew b2 = .ok s := by
  unfold packetNew at hp ⊢
  rw [h1] at hp; rw [h2]
  dsimp only at hp ⊢
  rw [hlen]
  exact hp

theorem setType_package {buf b2 : List Nat} {s : Sections} {fin k roff v : Nat}
    {q : PQuestion} {nxt : Nat}
    (hcol : collectSections buf = .ok (s, fin))
    (hk : scanQuestions buf k 12 = .ok roff) (hkn : k < s.questions)
    (hp : parseQuestion buf roff = .ok (q, nxt))
    (hc : cursorSetType buf roff v = .ok b2) :
    collectSections b2 = .ok (s, fin) ∧
    (packetNew buf = .ok s → packetNew b2 = .ok s) ∧
    parseQuestion b2 roff =
      .ok (⟨q.nameOff, muTypeFrom (v % 65536), q.cls⟩, nxt) := by
  obtain ⟨o, traw, craw, hs, ht, hcl, hq, hnxt⟩ := parseQuestion_inv hp
  obtain ⟨hlen, hout⟩ := cursorSetType_frame hc hs
  have hcol2 := collectSections_holeQ hlen hcol hk hkn hs (Nat.le_refl o)
    (by omega) hout
  exact ⟨hcol2, fun hpn => packetNew_stable hcol hcol2 hlen hpn,
    cursorSetType_reparse hp hc⟩

theorem setClassQ_package {buf b2 : List Nat} {s : Sections} {fin k roff v : Nat}
    {q : PQuestion} {nxt : Nat}
    (hcol : collectSections buf = .ok (s, fin))
    (hk : scanQuestions buf k 12 = .ok roff) (hkn : k < s.questions)
    (hp : parseQuestion buf roff = .ok (q, nxt))
    (hc : cursorSetClassQ buf roff v = .ok b2) :
    collectSections b2 = .ok (s, fin) ∧
    (packetNew buf = .ok s → packetNew b2 = .ok s) ∧
    parseQuestion b2 roff =
      .ok (⟨q.nameOff, q.typ, muClassFrom (v % 65536)⟩, nxt) := by
  obtain ⟨o, traw, craw, hs, ht, hcl, hq, hnxt⟩ := parseQuestion_inv hp
  obtain ⟨hlen, hout⟩ := cursorSetClassQ_frame hc hs
  have hcol2 := collectSections_holeQ hlen hcol hk hkn hs (by omega)
    (Nat.le_refl (o + 4)) hout
  exact ⟨hcol2, fun hpn => packetNew_stable hcol hcol2 hlen hpn,
    cursorSetClassQ_reparse hp hc⟩

theorem setClassR_package {buf b2 : List Nat} {s : Sections}
    {fin k astart roff v : Nat} {r : PResource} {nxt : Nat}
    (hcol : collectSections buf = .ok (s, fin))
    (hk : scanResources buf k astart = .ok roff)
    (hsec : (astart = s.answersOff ∧ k < s.answers) ∨
      (astart = s.authoritiesOff ∧ k < s.authorities) ∨
      (astart = s.additionalsOff ∧ k < s.additionals))
    (hp : parseResource buf roff = .ok (r, nxt))
    (hc : cursorSetClassR buf roff v = .ok b2) :
    collectSections b2 = .ok (s, fin) ∧
    (packetNew buf = .ok s → packetNew b2 = .ok s) ∧
    parseResource b2 roff =
      .ok (⟨r.nameOff, muClassFrom (v % 65536), r.ttl, r.data⟩, nxt) := by
  obtain ⟨o, traw, craw, ttl, dlen, d, hs, ht, hcl, httl, hdl, hd, hr, hnxt⟩ :=
    parseResource_inv hp
  obtain ⟨hlen, hout⟩ := cursorSetClassR_frame hc hs
  have hcol2 := collectSections_holeR hlen hcol hk hsec hs hdl (by omega)
    (by omega) hout
  exact ⟨hcol2, fun hpn => packetNew_stable hcol hcol2 hlen hpn,
    cursorSetClassR_reparse hp hc⟩

theorem setTtl_package {buf b2 : List Nat} {s : Sections}
    {fin k astart roff v : Nat} {r : PResource} {nxt : Nat}
    (hcol : collectSections buf = .ok (s, fin))
    (hk : scanResources buf k astart = .ok roff)
    (hsec : (astart = s.answersOff ∧ k < s.answers) ∨
      (astart = s.authoritiesOff ∧ k < s.authorities) ∨
      (astart = s.additionalsOff ∧ k < s.additionals))
    (hp : parseResource buf roff = .ok (r, nxt))
    (hc : cursorSetTtl buf roff v = .ok b2) :
    collectSections b2 = .ok (s, fin) ∧
    (packetNew buf = .ok s → packetNew b2 = .ok s) ∧
    parseResource b2 roff =
      .ok (⟨r.nameOff, r.cls, v % 4294967296, r.data⟩, nxt) := by
  obtain ⟨o, traw, craw, ttl, dlen, d, hs, ht, hcl, httl, hdl, hd, hr, hnxt⟩ :=
    parseResource_inv hp
  obtain ⟨hlen, hout⟩ := cursorSetTtl_frame hc hs
  have hcol2 := collectSections_holeR hlen hcol hk hsec hs hdl (by omega)
    (Nat.le_refl (o + 8)) hout
  exact ⟨hcol2, fun hpn => packetNew_stable hcol hcol2 hlen hpn,
    cursorSetTtl_reparse hp hc⟩

/-- C7 (corrected): the cursor setters `set_type`/`set_class` on a
question and `set_class`/`set_ttl` on a resource overwrite only the
targeted fixed-width big-endian field of the current record (first four
conjuncts: buffer length and every byte outside the field are preserved);
every record whose byte range is disjoint from the overwritten field
re-parses to the identical wire-level record (fifth conjunct); and for a
record located by the section scan, the mutation preserves
`collect_sections` and `Packet::new` verbatim while the mutated record
re-parses with exactly the targeted field changed (last four conjuncts).
The original claim's final clause — re-parsing yields the same records
with only the mutated fields changed — holds at the wire level, where a
record's name is its visitor offset, but not for materialized names: a
compression pointer in another record may target the mutated bytes. -/
theorem c7_mutation_amended :
    (∀ (buf b2 : List Nat) (pos o v : Nat),
      cursorSetType buf pos v = .ok b2 → skipName buf pos = .ok o →
      b2.length = buf.length ∧
      ∀ i, i < o ∨ o + 2 ≤ i → b2.getD i 0 = buf.getD i 0) ∧
    (∀ (buf b2 : List Nat) (pos o v : Nat),
      cursorSetClassQ buf pos v = .ok b2 → skipName buf pos = .ok o →
      b2.length = buf.length ∧
      ∀ i, i < o + 2 ∨ o + 4 ≤ i → b2.getD i 0 = buf.getD i 0) ∧
    (∀ (buf b2 : List Nat) (pos o v : Nat),
      cursorSetClassR buf pos v = .ok b2 → skipName buf pos = .ok o →
      b2.length = buf.length ∧
      ∀ i, i < o + 2 ∨ o + 4 ≤ i → b2.getD i 0 = buf.getD i 0) ∧
    (∀ (buf b2 : List Nat) (pos o v : Nat),
      cursorSetTtl buf pos v = .ok b2 → skipName buf pos = .ok o →
      b2.length = buf.length ∧
      ∀ i, i < o + 4 ∨ o + 8 ≤ i → b2.getD i 0 = buf.getD i 0) ∧
    (∀ (b1 b2 : List Nat) (lo hi : Nat), b2.length = b1.length →
      (∀ i, i < lo ∨ hi ≤ i → b2.getD i 0 = b1.getD i 0) →
      (∀ (off : Nat) (q : PQuestion) (nxt : Nat),
        parseQuestion b1 off = .ok (q, nxt) → nxt ≤ lo ∨ hi ≤ off →
        parseQuestion b2 off = .ok (q, nxt)) ∧
      (∀ (off : Nat) (r : PResource) (nxt : Nat),
        parseResource b1 off = .ok (r, nxt) → nxt ≤ lo ∨ hi ≤ off →
        parseResource b2 off = .ok (r, nxt))) ∧
    (∀ (buf b2 : List Nat) (s : Sections) (fin k roff v : Nat)
      (q : PQuestion) (nxt : Nat),
      collectSections buf = .ok (s, fin) →
      scanQuestions buf k 12 = .ok roff → k < s.questions →
      parseQuestion buf roff = .ok (q, nxt) →
      cursorSetType buf roff v = .ok b2 →
      collectSections b2 = .ok (s, fin) ∧
      (packetNew buf = .ok s → packetNew b2 = .ok s) ∧
      parseQuestion b2 roff =
        .ok (⟨q.nameOff, muTypeFrom (v % 65536), q.cls⟩, nxt)) ∧
    (∀ (buf b2 : List Nat) (s : Sections) (fin k roff v : Nat)
      (q : PQuestion) (nxt : Nat),
      collectSections buf = .ok (s, fin) →
      scanQuestions buf k 12 = .ok roff → k < s.questions →
      parseQuestion buf roff = .ok (q, nxt) →
      cursorSetClassQ buf roff v = .ok b2 →
      collectSections b2 = .ok (s, fin) ∧
      (packetNew buf = .ok s → packetNew b2 = .ok s) ∧
      parseQuestion b2 roff =
        .ok (⟨q.nameOff, q.typ, muClassFrom (v % 65536)⟩, nxt)) ∧
    (∀ (buf b2 : List Nat) (s : Sections) (fin k astart roff v : Nat)
      (r : PResource) (nxt : Nat),
      collectSections buf = .ok (s, fin) →
      scanResources buf k astart = .ok roff →
      ((astart = s.answersOff ∧ k < s.answers) ∨
        (astart = s.authoritiesOff ∧ k < s.authorities) ∨
        (astart = s.additionalsOff ∧ k < s.additionals)) →
      parseResource buf roff = .ok (r, nxt) →
      cursorSetClassR buf roff v = .ok b2 →
      collectSections b2 = .ok (s, fin) ∧
      (packetNew buf = .ok s → packetNew b2 = .ok s) ∧
      parseResource b2 roff =
        .ok (⟨r.nameOff, muClassFrom (v % 65536), r.ttl, r.data⟩, nxt)) ∧
    (∀ (buf b2 : List Nat) (s : Sections) (fin k astart roff v : Nat)
      (r : PResource) (nxt : Nat),
      collectSections buf = .ok (s, fin) →
      scanResources buf k astart = .ok roff →
      ((astart = s.answersOff ∧ k < s.answers) ∨
        (astart = s.authoritiesOff ∧ k < s.authorities) ∨
        (astart = s.additionalsOff ∧ k < s.additionals)) →
      parseResource buf roff = .ok (r, nxt) →
      cursorSetTtl buf roff v = .ok b2 →
      collectSections b2 = .ok (s, fin) ∧
      (packetNew buf = .ok s → packetNew b2 = .ok s) ∧
      parseResource b2 roff =
        .ok (⟨r.nameOff, r.cls, v % 4294967296, r.data⟩, nxt)) := by
  refine ⟨fun buf b2 pos o v hc hs => cursorSetType_frame hc hs,
    fun buf b2 pos o v hc hs => cursorSetClassQ_frame hc hs,
    fun buf b2 pos o v hc hs => cursorSetClassR_frame hc hs,
    fun buf b2 pos o v hc hs => cursorSetTtl_frame hc hs,
    ?_,
    fun buf b2 s fin k roff v q nxt hcol hk hkn hp hc =>
      setType_package hcol hk hkn hp hc,
    fun buf b2 s fin k roff v q nxt hcol hk hkn hp hc =>
      setClassQ_package hcol hk hkn hp hc,
    fun buf b2 s fin k astart roff v r nxt hcol hk hsec hp hc =>
      setClassR_package hcol hk hsec hp hc,
    fun buf b2 s fin k astart roff v r nxt hcol hk hsec hp hc =>
      setTtl_package hcol hk hsec hp hc⟩
  intro b1 b2 lo hi hlen hag
  constructor
  · intro off q nxt hp hdisj
    refine parseQuestion_agree hlen hp ?_
    intro i h1 h2
    rcases hdisj with hd | hd
    · exact hag i (Or.inl (by omega))
    · exact hag i (Or.inr (by omega))
  · intro off r nxt hp hdisj
    refine parseResource_agree hlen hp ?_
    intro i h1 h2
    rcases hdisj with hd | hd
    · exact hag i (Or.inl (by omega))
    · exact hag i (Or.inr (by omega))

/-- C7 counterexample to the original claim's re-parse clause: in
`overlapBuf` the second question's name is a compression pointer into the
first question's 2-byte type field.  `set_type(256)` on the first
question rewrites only those two bytes and the second question re-parses
to the same wire-level record, yet its materialized name changes from
`"."` to a 1-label name, so re-parsing does not yield the same records
with only the mutated field changed. -/
theorem c7_counterexample :
    cursorSetType overlapBuf 12 256 = .ok overlapBufM ∧
    parseQuestion overlapBuf 19 = .ok (⟨19, .known .A, .known .INET⟩, 25) ∧
    parseQuestion overlapBufM 19 = .ok (⟨19, .known .A, .known .INET⟩, 25) ∧
    matQuestion overlapBuf ⟨19, .known .A, .known .INET⟩ =
      .ok ⟨[46], .known .A, .known .INET⟩ ∧
    matQuestion overlapBufM ⟨19, .known .A, .known .INET⟩ =
      .ok ⟨[0, 46], .known .A, .known .INET⟩ ∧
    ([0, 46] : List Nat) ≠ [46] := by
  have hs12 : skipName overlapBuf 12 = .ok 15 :=
    skipNameF_sound 50 _ _ _ (by decide)
  have hs19 : skipName overlapBuf 19 = .ok 21 :=
    skipNameF_sound 50 _ _ _ (by decide)
  have hs19M : skipName overlapBufM 19 = .ok 21 :=
    skipNameF_sound 50 _ _ _ (by decide)
  have hr19 : resolveSegs overlapBuf 19 0 = .ok [] :=
    resolveSegsF_sound 50 _ _ _ _ (by decide)
  have hr19M : resolveSegs overlapBufM 19 0 = .ok [[0]] :=
    resolveSegsF_sound 50 _ _ _ _ (by decide)
  refine ⟨?_, ?_, ?_, ?_, ?_, by decide⟩
  · unfold cursorSetType
    rw [hs12]
    decide
  · unfold parseQuestion
    rw [hs19]
    decide
  · unfold parseQuestion
    rw [hs19M]
    decide
  · unfold matQuestion
    dsimp only
    unfold nameText
    rw [hr19]
    decide
  · unfold matQuestion
    dsimp only
    unfold nameText
    rw [hr19M]
    decide

/-- C7 witness: the amended theorem applied to `overlapBuf`:
`set_type(256)` on the first question yields `overlapBufM`, the section
scan and `Packet::new` results are unchanged, the first question
re-parses with only its type changed, and the disjoint second question
re-parses identically at the wire level. -/
theorem c7_witness :
    cursorSetType overlapBuf 12 256 = .ok overlapBufM ∧
    collectSections overlapBufM = .ok (⟨2, 12, 0, 25, 0, 25, 0, 25⟩, 25) ∧
    packetNew overlapBufM = .ok ⟨2, 12, 0, 25, 0, 25, 0, 25⟩ ∧
    parseQuestion overlapBufM 12 =
      .ok (⟨12, muTypeFrom 256, muClassFrom 1⟩, 19) ∧
    parseQuestion overlapBufM 19 = .ok (⟨19, .known .A, .known .INET⟩, 25) := by
  have hs12 : skipName overlapBuf 12 = .ok 15 :=
    skipNameF_sound 50 _ _ _ (by decide)
  have hs19 : skipName overlapBuf 19 = .ok 21 :=
    skipNameF_sound 50 _ _ _ (by decide)
  have hpq12 : parseQuestion overlapBuf 12 =
      .ok (⟨12, .known .A, .known .INET⟩, 19) := by
    unfold parseQuestion; rw [hs12]; decide
  have hpq19 : parseQuestion overlapBuf 19 =
      .ok (⟨19, .known .A, .known .INET⟩, 25) := by
    unfold parseQuestion; rw [hs19]; decide
  have hcset : cursorSetType overlapBuf 12 256 = .ok overlapBufM := by
    unfold cursorSetType; rw [hs12]; decide
  have hsq1 : skipQuestion overlapBuf 12 = .ok 19 := by
    unfold skipQuestion; rw [hs12]
  have hsq2 : skipQuestion overlapBuf 19 = .ok 25 := by
    unfold skipQuestion; rw [hs19]
  have hscan : scanQuestions overlapBuf 2 12 = .ok 25 := by
    simp [scanQuestions, hsq1, hsq2]
  have hl4 : load2 overlapBuf 4 none = .ok 2 := by decide
  have hl6 : load2 overlapBuf 6 none = .ok 0 := by decide
  have hl8 : load2 overlapBuf 8 none = .ok 0 := by decide
  have hl10 : load2 overlapBuf 10 none = .ok 0 := by decide
  have hcol : collectSections overlapBuf =
      .ok (⟨2, 12, 0, 25, 0, 25, 0, 25⟩, 25) := by
    unfold collectSections
    rw [hl4]; dsimp only
    rw [hl6]; dsimp only
    rw [hl8]; dsimp only
    rw [hl10]; dsimp only
    rw [hscan]; dsimp only
    decide
  have hpn : packetNew overlapBuf = .ok ⟨2, 12, 0, 25, 0, 25, 0, 25⟩ := by
    unfold packetNew
    rw [hcol]; dsimp only
    rw [if_neg (by decide)]
  obtain ⟨hA1, hA2, hA3, hA4, hB, hC, hD, hE, hF⟩ := c7_mutation_amended
  have hpkg := hC overlapBuf overlapBufM ⟨2, 12, 0, 25, 0, 25, 0, 25⟩ 25 0 12 256
    ⟨12, .known .A, .known .INET⟩ 19 hcol rfl (by decide) hpq12 hcset
  obtain ⟨hlenM, houtM⟩ := hA1 overlapBuf overlapBufM 12 15 256 hcset hs12
  have hq2 := (hB overlapBuf overlapBufM 15 17 hlenM houtM).1 19
    ⟨19, .known .A, .known .INET⟩ 25 hpq19 (Or.inr (by decide))
  exact ⟨hcset, hpkg.1, hpkg.2.1 hpn, hpkg.2.2, hq2⟩
